import Mathlib

/-!
The in-memory session provider of gosm

A shallow embedding of `memory/memory.go` (the `Provider` with its `sessions`
map and its `container/list` recency list) and the properties of its
operations.

Conventions of the embedding:

* Go pointers are arena addresses.  Every `list.Element` is allocated together
  with the `SessionStore` it carries and its `Value` is never reassigned, so
  one address stands for the element and for the `*SessionStore` in it.  The
  arena (`heap`) only grows; address `a` is position `a` of the arena.
* `time.Now()` is an explicit argument of every operation that reads the clock.
* A Go `map` is an association list read through `mapGet`.
* `sync.Mutex` is not modelled: operations are atomic state transformers.
-/

namespace Gosm

/-! ## Values, time, machine integers -/

/-- Go `interface{}` values used as attribute keys and values. -/
inductive Any where
  | nil : Any
  | str : String → Any
  | int : Int → Any
  | bool : Bool → Any
deriving DecidableEq, Repr

/-- A `time.Time`: the wall clock reading in nanoseconds since the Unix epoch. -/
structure Time where
  wall : Int
deriving DecidableEq, Repr

/-- `Time.Unix()`: whole seconds since the epoch (rounded down). -/
def Time.Unix (t : Time) : Int := t.wall / 1000000000

/-- Two's complement wrap-around of an `int64` result. -/
def wrapInt64 (x : Int) : Int := (x + 9223372036854775808) % 18446744073709551616 - 9223372036854775808

/-- Go `error`: `none` is `nil`. -/
abbrev error := Option String

/-! ## Go maps as association lists -/

/-- `v, ok := m[k]`. -/
def mapGet {κ ν : Type} [DecidableEq κ] : List (κ × ν) → κ → Option ν
  | [], _ => none
  | (k', v) :: m, k => if k' = k then some v else mapGet m k

/-- `delete(m, k)`. -/
def mapDelete {κ ν : Type} [DecidableEq κ] (m : List (κ × ν)) (k : κ) : List (κ × ν) :=
  m.filter (fun kv => decide (kv.1 ≠ k))

/-- `m[k] = v`. -/
def mapSet {κ ν : Type} [DecidableEq κ] (m : List (κ × ν)) (k : κ) (v : ν) : List (κ × ν) :=
  (k, v) :: mapDelete m k

/-! ## container/list, front first -/

/-- `l.PushBack(e)`. -/
def PushBack (l : List Nat) (e : Nat) : List Nat := l ++ [e]

/-- `l.Back()`; `none` is the nil element of an empty list. -/
def Back (l : List Nat) : Option Nat := l.getLast?

/-- `l.Remove(e)`; nothing happens when `e` is not an element of `l`. -/
def Remove (l : List Nat) (e : Nat) : List Nat := l.erase e

/-- `l.MoveToFront(e)`; nothing happens when `e` is not an element of `l`. -/
def MoveToFront (l : List Nat) (e : Nat) : List Nat :=
  if e ∈ l then e :: l.erase e else l

/-! ## The provider -/

/-- The record of one session (`SessionStore` without its back pointer to the
provider, which is passed explicitly). -/
structure SessionStore where
  sid : String
  timeAccessed : Time
  value : List (Any × Any)
deriving DecidableEq, Repr

/-- The `Provider`: the `sessions` map from sid to element, the recency `list`
of elements (front first), and the arena of the records the elements carry. -/
structure Provider where
  sessions : List (String × Nat)
  list : List Nat
  heap : List SessionStore
deriving DecidableEq, Repr

/-- `NewProvider()`. -/
def NewProvider : Provider := { sessions := [], list := [], heap := [] }

/-- `SessionInit(sid)` called at time `now`. -/
def SessionInit (pder : Provider) (sid : String) (now : Time) : Provider × Except String Nat :=
  match mapGet pder.sessions sid with
  | some _ => (pder, Except.error "session sid not unique!")
  | none =>
    let element := pder.heap.length
    let newsess : SessionStore := { sid := sid, timeAccessed := now, value := [] }
    ({ sessions := mapSet pder.sessions sid element,
       list := PushBack pder.list element,
       heap := pder.heap ++ [newsess] }, Except.ok element)

/-- `SessionRead(sid)`. -/
def SessionRead (pder : Provider) (sid : String) : Except String Nat :=
  match mapGet pder.sessions sid with
  | some element => Except.ok element
  | none => Except.error "session not valid!"

/-- `SessionDestroy(sid)`. -/
def SessionDestroy (pder : Provider) (sid : String) : Provider × error :=
  match mapGet pder.sessions sid with
  | some element =>
    ({ pder with sessions := mapDelete pder.sessions sid, list := Remove pder.list element }, none)
  | none => (pder, none)

/-- The eviction test of `SessionGC`:
`timeAccessed.Unix()+maxlifetime < time.Now().Unix()` in `int64` arithmetic. -/
def expired (maxlifetime : Int) (now : Time) (st : SessionStore) : Bool :=
  decide (wrapInt64 (st.timeAccessed.Unix + maxlifetime) < now.Unix)

/-- The eviction test on the record an element carries. -/
def expiredAt (heap : List SessionStore) (maxlifetime : Int) (now : Time) (e : Nat) : Bool :=
  match heap[e]? with
  | some st => expired maxlifetime now st
  | none => false

/-- One iteration of the loop of `SessionGC`: `none` is `break`. -/
def gcStep (pder : Provider) (maxlifetime : Int) (now : Time) : Option Provider :=
  match Back pder.list with
  | none => none
  | some element =>
    match pder.heap[element]? with
    | none => none
    | some st =>
      if expired maxlifetime now st then
        some { pder with list := Remove pder.list element,
                         sessions := mapDelete pder.sessions st.sid }
      else none

/-- The loop of `SessionGC`, at most `fuel` iterations. -/
def gcLoop (maxlifetime : Int) (now : Time) : Nat → Provider → Provider
  | 0, pder => pder
  | fuel + 1, pder =>
    match gcStep pder maxlifetime now with
    | none => pder
    | some pder1 => gcLoop maxlifetime now fuel pder1

/-- `SessionGC(maxlifetime)` run at time `now`.  Every iteration that does not
break removes the back element, so the length of the list bounds the loop. -/
def SessionGC (pder : Provider) (maxlifetime : Int) (now : Time) : Provider :=
  gcLoop maxlifetime now pder.list.length pder

/-- The assignment `element.Value.(*SessionStore).timeAccessed = now`. -/
def setTimeAccessed (heap : List SessionStore) (element : Nat) (now : Time) : List SessionStore :=
  match heap[element]? with
  | some st => heap.set element { st with timeAccessed := now }
  | none => heap

/-- `SessionUpdate(sid)` called at time `now`. -/
def SessionUpdate (pder : Provider) (sid : String) (now : Time) : Provider × error :=
  match mapGet pder.sessions sid with
  | some element =>
    ({ pder with heap := setTimeAccessed pder.heap element now,
                 list := MoveToFront pder.list element }, none)
  | none => (pder, none)

/-- `st.Get(key)` on the record at address `st`, called at time `now`.  A
method is only ever called on an allocated record; on an address outside the
arena the model does nothing. -/
def Get (pder : Provider) (st : Nat) (key : Any) (now : Time) : Provider × Any :=
  match pder.heap[st]? with
  | none => (pder, Any.nil)
  | some s =>
    let pder1 := (SessionUpdate pder s.sid now).1
    match mapGet s.value key with
    | some v => (pder1, v)
    | none => (pder1, Any.nil)

/-- `st.Set(key, value)` on the record at address `st`, called at time `now`. -/
def Set (pder : Provider) (st : Nat) (key value : Any) (now : Time) : Provider × error :=
  match pder.heap[st]? with
  | none => (pder, none)
  | some s =>
    let pder1 : Provider :=
      { pder with heap := pder.heap.set st { s with value := mapSet s.value key value } }
    ((SessionUpdate pder1 s.sid now).1, none)

/-- `st.Delete(key)` on the record at address `st`, called at time `now`. -/
def Delete (pder : Provider) (st : Nat) (key : Any) (now : Time) : Provider × error :=
  match pder.heap[st]? with
  | none => (pder, none)
  | some s =>
    let pder1 : Provider :=
      { pder with heap := pder.heap.set st { s with value := mapDelete s.value key } }
    ((SessionUpdate pder1 s.sid now).1, none)

/-- `st.SessionID()`. -/
def SessionID (pder : Provider) (st : Nat) : Option String :=
  (pder.heap[st]?).map SessionStore.sid

/-! ## Observations -/

/-- The records carried by the list, front to back. -/
def records (pder : Provider) : List SessionStore :=
  pder.list.filterMap (fun e => pder.heap[e]?)

/-- The sids carried by the list, front to back. -/
def sids (pder : Provider) : List String := (records pder).map SessionStore.sid

/-- The list is sorted by `timeAccessed` descending from front to back. -/
def SortedDesc (pder : Provider) : Prop :=
  (records pder).Pairwise (fun a b => b.timeAccessed.wall ≤ a.timeAccessed.wall)

instance (pder : Provider) : Decidable (SortedDesc pder) := by
  unfold SortedDesc; infer_instance

/-- Well-formedness of the index/order pair.  `nodup`: a `container/list`
holds an element at most once.  `index`: every key of `sessions` refers to an
element of the list whose record has that sid.  `order`: every element of the
list is referred to by a key of `sessions`. -/
structure WellFormed (pder : Provider) : Prop where
  nodup : pder.list.Nodup
  index : ∀ k e, mapGet pder.sessions k = some e → e ∈ pder.list ∧ SessionID pder e = some k
  order : ∀ e, e ∈ pder.list → ∃ k, mapGet pder.sessions k = some e

/-- The states a provider can be in: `NewProvider()` followed by any calls of
`SessionInit`, `SessionUpdate`, `SessionDestroy` and `SessionGC`. -/
inductive Reachable : Provider → Prop where
  | new : Reachable NewProvider
  | init (pder : Provider) (sid : String) (now : Time) :
      Reachable pder → Reachable (SessionInit pder sid now).1
  | update (pder : Provider) (sid : String) (now : Time) :
      Reachable pder → Reachable (SessionUpdate pder sid now).1
  | destroy (pder : Provider) (sid : String) :
      Reachable pder → Reachable (SessionDestroy pder sid).1
  | gc (pder : Provider) (maxlifetime : Int) (now : Time) :
      Reachable pder → Reachable (SessionGC pder maxlifetime now)

/-- The addition of the eviction test does not leave the `int64` range on any
record of the list. -/
def NoOverflow (pder : Provider) (maxlifetime : Int) : Prop :=
  ∀ st ∈ records pder,
    -9223372036854775808 ≤ st.timeAccessed.Unix + maxlifetime ∧
    st.timeAccessed.Unix + maxlifetime < 9223372036854775808

instance (pder : Provider) (maxlifetime : Int) : Decidable (NoOverflow pder maxlifetime) := by
  unfold NoOverflow; infer_instance

/-- The sweep as the specification words it: the records left by
`SessionGC` are exactly the records whose idle time `now - timeAccessed` was
below `maxlifetime` seconds before the call. -/
def SweepExact (pder : Provider) (maxlifetime : Int) (now : Time) : Prop :=
  ∀ st : SessionStore, st ∈ records (SessionGC pder maxlifetime now) ↔
    (st ∈ records pder ∧ now.wall - st.timeAccessed.wall < maxlifetime * 1000000000)

/-- The early stop as the specification words it, on the test of the code: the
sweep leaves exactly the elements of the whole list that fail the eviction
test, in their order, with `sessions` restricted to them. -/
def EarlyStopIsFilter (pder : Provider) (maxlifetime : Int) (now : Time) : Prop :=
  (SessionGC pder maxlifetime now).list =
    pder.list.filter (fun e => !expiredAt pder.heap maxlifetime now e) ∧
  ∀ k e, mapGet (SessionGC pder maxlifetime now).sessions k = some e ↔
    (mapGet pder.sessions k = some e ∧ e ∈ (SessionGC pder maxlifetime now).list)

/-- The safety of the sweep as the specification words it: every record the
sweep removes was idle for more than `maxlifetime` seconds. -/
def SweepSafe (pder : Provider) (maxlifetime : Int) (now : Time) : Prop :=
  ∀ e ∈ pder.list, e ∉ (SessionGC pder maxlifetime now).list →
    ∀ st ∈ pder.heap[e]?, maxlifetime * 1000000000 < now.wall - st.timeAccessed.wall

/-! ## encoding/base64 and net/url

Go strings are byte strings; the strings of the model hold one character per
byte. -/

/-- The alphabet of `base64.URLEncoding`. -/
def encodeURL : List Char :=
  "ABCDEFGHIJKLMNOPQRSTUVWXYZabcdefghijklmnopqrstuvwxyz0123456789-_".toList

/-- The character of a 6-bit group: `enc.encode[v&0x3F]`. -/
def encChar (v : Nat) : Char := encodeURL.getD (v % 64) 'A'

/-- The body of `Encoding.Encode` with the padding character `=`: four
characters for every three bytes, the last group padded. -/
def encodeBytes : List UInt8 → List Char
  | b0 :: b1 :: b2 :: rest =>
    let val := b0.toNat * 65536 + b1.toNat * 256 + b2.toNat
    encChar (val / 262144) :: encChar (val / 4096) :: encChar (val / 64) :: encChar val ::
      encodeBytes rest
  | [b0, b1] =>
    let val := b0.toNat * 65536 + b1.toNat * 256
    [encChar (val / 262144), encChar (val / 4096), encChar (val / 64), '=']
  | [b0] =>
    let val := b0.toNat * 65536
    [encChar (val / 262144), encChar (val / 4096), '=', '=']
  | [] => []

/-- `base64.URLEncoding.EncodeToString(src)`. -/
def EncodeToString (src : List UInt8) : String := String.mk (encodeBytes src)

/-- `shouldEscape(c, encodeQueryComponent)` of `net/url`. -/
def shouldEscape (c : Char) : Bool :=
  if ('a' ≤ c ∧ c ≤ 'z') ∨ ('A' ≤ c ∧ c ≤ 'Z') ∨ ('0' ≤ c ∧ c ≤ '9') then false
  else if c = '-' ∨ c = '_' ∨ c = '.' ∨ c = '~' then false
  else true

/-- The digits of `upperhex`. -/
def upperhex : List Char := "0123456789ABCDEF".toList

/-- What `escape(s, encodeQueryComponent)` writes for one byte. -/
def escapeChar (c : Char) : List Char :=
  if shouldEscape c then
    if c = ' ' then ['+']
    else ['%', upperhex.getD (c.toNat / 16 % 16) '0', upperhex.getD (c.toNat % 16) '0']
  else [c]

/-- The loop of `escape(s, encodeQueryComponent)`. -/
def escape : List Char → List Char
  | [] => []
  | c :: s => escapeChar c ++ escape s

/-- `url.QueryEscape(s)`. -/
def QueryEscape (s : String) : String := String.mk (escape s.toList)

/-- `ishex(c)` of `net/url`. -/
def ishex (c : Char) : Bool :=
  decide (('0' ≤ c ∧ c ≤ '9') ∨ ('a' ≤ c ∧ c ≤ 'f') ∨ ('A' ≤ c ∧ c ≤ 'F'))

/-- `unhex(c)` of `net/url`. -/
def unhex (c : Char) : Nat :=
  if '0' ≤ c ∧ c ≤ '9' then c.toNat - 48
  else if 'a' ≤ c ∧ c ≤ 'f' then c.toNat - 97 + 10
  else if 'A' ≤ c ∧ c ≤ 'F' then c.toNat - 65 + 10
  else 0

/-- The two passes of `unescape(s, encodeQueryComponent)`: `none` is the
`EscapeError` of a `%` that is not followed by two hex digits. -/
def unescape : List Char → Option (List Char)
  | [] => some []
  | c :: rest =>
    if c = '%' then
      match rest with
      | a :: b :: rest2 =>
        if ishex a && ishex b then
          (unescape rest2).map (fun r => Char.ofNat (unhex a * 16 + unhex b) :: r)
        else none
      | _ => none
    else if c = '+' then (unescape rest).map (fun r => ' ' :: r)
    else (unescape rest).map (fun r => c :: r)

/-- `url.QueryUnescape(s)`. -/
def QueryUnescape (s : String) : String × error :=
  match unescape s.toList with
  | some r => (String.mk r, none)
  | none => ("", some "invalid URL escape")

/-! ## The session manager -/

/-- The fields of `http.Cookie` the manager sets. -/
structure Cookie where
  Name : String
  Value : String
  Path : String
  HttpOnly : Bool
  Expires : Option Time
  MaxAge : Int
deriving DecidableEq, Repr

/-- The `Manager`; its `provider` is the memory `Provider`, passed explicitly,
and its lock is not modelled. -/
structure Manager where
  CookieName : String
  maxlifetime : Int
deriving DecidableEq, Repr

/-- `manager.sessionId()`; `rd` is the outcome of
`io.ReadFull(rand.Reader, buf)` on the 256-byte buffer: the error, or the
filled buffer. -/
def sessionId (rd : Except String (List UInt8)) : String × error :=
  match rd with
  | Except.error err => ("", some err)
  | Except.ok buf => (EncodeToString buf, none)

/-- `manager.generateNewSession()`, at most `fuel` iterations of its loop,
`none` when the loop has not ended by then.  Attempt `i` reads `rand i` from
the random source at clock time `clock i`; the error of `sessionId` is
dropped as in the source. -/
def generateNewSession (rand : Nat → Except String (List UInt8)) (clock : Nat → Time) :
    Nat → Nat → Provider → Option (Provider × Nat × String)
  | 0, _, _ => none
  | fuel + 1, i, pder =>
    let sid := (sessionId (rand i)).1
    match SessionInit pder sid (clock i) with
    | (pder1, Except.ok session) => some (pder1, session, sid)
    | (pder1, Except.error _) => generateNewSession rand clock fuel (i + 1) pder1

/-- `manager.StartSession(w)`: the provider, the session and the cookie set on
the response; `none` when `generateNewSession` has not returned. -/
def StartSession (manager : Manager) (rand : Nat → Except String (List UInt8))
    (clock : Nat → Time) (fuel : Nat) (pder : Provider) : Option (Provider × Nat × Cookie) :=
  match generateNewSession rand clock fuel 0 pder with
  | none => none
  | some (pder1, session, sid) =>
    some (pder1, session,
      { Name := manager.CookieName, Value := QueryEscape sid, Path := "/", HttpOnly := true,
        Expires := none, MaxAge := 0 })

/-- `manager.GetSession(r)`; `cookie` is the value of the cookie named
`manager.CookieName` in the request, `none` when the request has none. -/
def GetSession (_manager : Manager) (pder : Provider) (cookie : Option String) : Option Nat :=
  match cookie with
  | none => none
  | some value =>
    if value = "" then none
    else
      let sid := (QueryUnescape value).1
      match SessionRead pder sid with
      | Except.ok session => some session
      | Except.error _ => none

/-- `manager.DestroySession(w, r)` called at time `now`: the provider and the
cookie set on the response. -/
def DestroySession (manager : Manager) (pder : Provider) (cookie : Option String)
    (now : Time) : Provider × Option Cookie :=
  match cookie with
  | none => (pder, none)
  | some value =>
    if value = "" then (pder, none)
    else
      ((SessionDestroy pder value).1,
        some { Name := manager.CookieName, Value := "", Path := "/", HttpOnly := true,
               Expires := some now, MaxAge := -1 })

/-- `manager.GC()`: one run of the sweep at time `now` (the timer that calls it
again is not modelled). -/
def GC (manager : Manager) (pder : Provider) (now : Time) : Provider :=
  SessionGC pder manager.maxlifetime now

/-! ## Concrete scenarios -/

/-- One session "A" created at second 0. -/
def stateA : Provider := (SessionInit NewProvider "A" { wall := 0 }).1

/-- Session "A" created at second 0, then "B" at second 1. -/
def stateAB : Provider := (SessionInit stateA "B" { wall := 1000000000 }).1

/-- Sessions "A", "B", "C" created at seconds 0, 1 and 2. -/
def stateABC : Provider := (SessionInit stateAB "C" { wall := 2000000000 }).1

/-- Session "A" created at second 0, "B" at second 1 and touched at second 3. -/
def stateBA : Provider := (SessionUpdate stateAB "B" { wall := 3000000000 }).1

/-- Session "A" created at second 0 and "B" at second 10. -/
def stateLateB : Provider := (SessionInit stateA "B" { wall := 10000000000 }).1

/-- One session "A" created at second 1. -/
def stateA1 : Provider := (SessionInit NewProvider "A" { wall := 1000000000 }).1

/-- Session "A" created at second 1, "B" at second 2 and touched at second 10. -/
def stateB10 : Provider :=
  (SessionUpdate (SessionInit stateA1 "B" { wall := 2000000000 }).1 "B" { wall := 10000000000 }).1

/-- The buffer of 256 zero bytes. -/
def zeros : List UInt8 := List.replicate 256 0

/-- A random source that yields the zero buffer at every read. -/
def zeroSource : Nat → Except String (List UInt8) := fun _ => Except.ok zeros

/-- A random source that fails at every read. -/
def failingSource : Nat → Except String (List UInt8) := fun _ => Except.error "EOF"

/-- A clock that shows second `i` at attempt `i`. -/
def tick : Nat → Time := fun i => { wall := 1000000000 * i }

/-- The provider that holds the session of the zero buffer. -/
def stateToken : Provider := (SessionInit NewProvider (EncodeToString zeros) { wall := 0 }).1

/-! ## Lemmas on maps -/

theorem mapGet_mapDelete {κ ν : Type} [DecidableEq κ] (m : List (κ × ν)) (k k' : κ) :
    mapGet (mapDelete m k) k' = if k' = k then none else mapGet m k' := by
  induction m with
  | nil => simp [mapDelete, mapGet]
  | cons kv m ih =>
    obtain ⟨a, v⟩ := kv
    unfold mapDelete at ih ⊢
    by_cases hak : a = k
    · subst hak
      by_cases hk : k' = a
      · simp [List.filter_cons, hk] at ih ⊢
        simpa [hk] using ih
      · have hk2 : ¬ a = k' := fun h => hk h.symm
        simp [List.filter_cons, mapGet, hk, hk2] at ih ⊢
        simpa [hk] using ih
    · by_cases hk : k' = k
      · subst hk
        simp [List.filter_cons, hak, mapGet] at ih ⊢
        simpa using ih
      · by_cases hak2 : a = k'
        · simp [List.filter_cons, hak, mapGet, hak2, hk]
        · simp [List.filter_cons, hak, mapGet, hak2, hk] at ih ⊢
          simpa [hk] using ih

theorem mapGet_mapSet {κ ν : Type} [DecidableEq κ] (m : List (κ × ν)) (k k' : κ) (v : ν) :
    mapGet (mapSet m k v) k' = if k' = k then some v else mapGet m k' := by
  unfold mapSet
  by_cases hk : k' = k
  · simp [mapGet, hk]
  · have hk2 : ¬ k = k' := fun h => hk h.symm
    simp [mapGet, hk, hk2, mapGet_mapDelete]

/-! ## The two branches of each operation -/

theorem SessionUpdate_some {pder : Provider} {sid : String} {a : Nat} (now : Time)
    (hg : mapGet pder.sessions sid = some a) :
    SessionUpdate pder sid now =
      ({ pder with heap := setTimeAccessed pder.heap a now,
                   list := MoveToFront pder.list a }, none) := by
  simp [SessionUpdate, hg]

theorem SessionUpdate_none {pder : Provider} {sid : String} (now : Time)
    (hg : mapGet pder.sessions sid = none) : SessionUpdate pder sid now = (pder, none) := by
  simp [SessionUpdate, hg]

theorem SessionDestroy_some {pder : Provider} {sid : String} {a : Nat}
    (hg : mapGet pder.sessions sid = some a) :
    SessionDestroy pder sid =
      ({ pder with sessions := mapDelete pder.sessions sid,
                   list := Remove pder.list a }, none) := by
  simp [SessionDestroy, hg]

theorem SessionDestroy_none {pder : Provider} {sid : String}
    (hg : mapGet pder.sessions sid = none) : SessionDestroy pder sid = (pder, none) := by
  simp [SessionDestroy, hg]

theorem SessionInit_some {pder : Provider} {sid : String} {a : Nat} (now : Time)
    (hg : mapGet pder.sessions sid = some a) :
    SessionInit pder sid now = (pder, Except.error "session sid not unique!") := by
  simp [SessionInit, hg]

theorem SessionInit_none {pder : Provider} {sid : String} (now : Time)
    (hg : mapGet pder.sessions sid = none) :
    SessionInit pder sid now =
      ({ sessions := mapSet pder.sessions sid pder.heap.length,
         list := PushBack pder.list pder.heap.length,
         heap := pder.heap ++ [{ sid := sid, timeAccessed := now, value := [] }] },
       Except.ok pder.heap.length) := by
  simp [SessionInit, hg]

/-! ## Preservation of well-formedness -/

theorem SessionID_lt {pder : Provider} {e : Nat} {k : String}
    (h : SessionID pder e = some k) : e < pder.heap.length := by
  unfold SessionID at h
  by_contra hlt
  have hn : pder.heap[e]? = none := List.getElem?_eq_none (Nat.le_of_not_lt hlt)
  rw [hn] at h
  simp at h

theorem wf_new : WellFormed NewProvider :=
  { nodup := List.nodup_nil
    index := fun k e h => by simp [NewProvider, mapGet] at h
    order := fun e h => by simp [NewProvider] at h }

theorem wf_lt {pder : Provider} (hwf : WellFormed pder) {e : Nat} (he : e ∈ pder.list) :
    e < pder.heap.length := by
  obtain ⟨k, hk⟩ := hwf.order e he
  exact SessionID_lt (hwf.index k e hk).2

theorem wf_init {pder : Provider} (hwf : WellFormed pder) (sid : String) (now : Time) :
    WellFormed (SessionInit pder sid now).1 := by
  cases hg : mapGet pder.sessions sid with
  | some e => rw [SessionInit_some now hg]; exact hwf
  | none =>
    rw [SessionInit_none now hg]
    refine { nodup := ?_, index := ?_, order := ?_ }
    · simp only [PushBack]
      refine List.Nodup.append hwf.nodup (List.nodup_singleton _) ?_
      intro a ha hb
      have h1 := wf_lt hwf ha
      simp at hb
      omega
    · intro k e h
      simp only [mapGet_mapSet] at h
      by_cases hk : k = sid
      · simp [hk] at h
        subst h
        simp [PushBack, SessionID, hk]
      · simp [hk] at h
        obtain ⟨h1, h2⟩ := hwf.index k e h
        refine ⟨by simp [PushBack, h1], ?_⟩
        have hlt := SessionID_lt h2
        unfold SessionID at h2 ⊢
        simpa [List.getElem?_append_left hlt] using h2
    · intro e he
      simp only [PushBack, List.mem_append, List.mem_singleton] at he
      rcases he with he | he
      · obtain ⟨k, hk⟩ := hwf.order e he
        refine ⟨k, ?_⟩
        have hne : k ≠ sid := by
          intro h
          rw [h, hg] at hk
          simp at hk
        simp [mapGet_mapSet, hne, hk]
      · exact ⟨sid, by simp [mapGet_mapSet, he]⟩

theorem sid_setTimeAccessed (heap : List SessionStore) (a e : Nat) (now : Time) :
    ((setTimeAccessed heap a now)[e]?).map SessionStore.sid = (heap[e]?).map SessionStore.sid := by
  unfold setTimeAccessed
  cases ha : heap[a]? with
  | none => simp
  | some st =>
    by_cases hae : a = e
    · subst hae
      have hlt : a < heap.length := by
        by_contra hlt
        rw [List.getElem?_eq_none (Nat.le_of_not_lt hlt)] at ha
        simp at ha
      simp [List.getElem?_set, hlt, ha]
    · simp [List.getElem?_set, hae]

theorem wf_update {pder : Provider} (hwf : WellFormed pder) (sid : String) (now : Time) :
    WellFormed (SessionUpdate pder sid now).1 := by
  cases hg : mapGet pder.sessions sid with
  | none => rw [SessionUpdate_none now hg]; exact hwf
  | some a =>
    rw [SessionUpdate_some now hg]
    have ha : a ∈ pder.list := (hwf.index sid a hg).1
    have hmem : ∀ e, e ∈ MoveToFront pder.list a ↔ e ∈ pder.list := by
      intro e
      simp only [MoveToFront, ha, if_true, List.mem_cons]
      by_cases hea : e = a
      · simp [hea, ha]
      · simp [hea, List.mem_erase_of_ne hea]
    refine { nodup := ?_, index := ?_, order := ?_ }
    · simp only [MoveToFront, ha, if_true]
      exact List.nodup_cons.mpr ⟨fun h => (List.Nodup.mem_erase_iff hwf.nodup).mp h |>.1 rfl,
        hwf.nodup.erase a⟩
    · intro k e h
      obtain ⟨h1, h2⟩ := hwf.index k e h
      refine ⟨(hmem e).mpr h1, ?_⟩
      show ((setTimeAccessed pder.heap a now)[e]?).map SessionStore.sid = some k
      rw [sid_setTimeAccessed]
      exact h2
    · intro e he
      exact hwf.order e ((hmem e).mp he)

/-- Removing an element from the list together with its key from the map. -/
theorem wf_remove {pder : Provider} (hwf : WellFormed pder) {a : Nat} {sid : String}
    (hg : mapGet pder.sessions sid = some a) :
    WellFormed { pder with sessions := mapDelete pder.sessions sid, list := Remove pder.list a } := by
  refine { nodup := hwf.nodup.erase a, index := ?_, order := ?_ }
  · intro k e h
    simp only [mapGet_mapDelete] at h
    by_cases hk : k = sid
    · simp [hk] at h
    · simp [hk] at h
      obtain ⟨h1, h2⟩ := hwf.index k e h
      have hne : e ≠ a := by
        intro hea
        subst hea
        have h3 := (hwf.index sid e hg).2
        rw [h2] at h3
        exact hk (Option.some.inj h3)
      exact ⟨by simp [Remove, List.mem_erase_of_ne hne, h1], h2⟩
  · intro e he
    have he2 := (List.Nodup.mem_erase_iff hwf.nodup).mp he
    obtain ⟨k, hk⟩ := hwf.order e he2.2
    refine ⟨k, ?_⟩
    have hne : k ≠ sid := by
      intro h
      rw [h, hg] at hk
      exact he2.1 (Option.some.inj hk).symm
    simp [mapGet_mapDelete, hne, hk]

theorem wf_destroy {pder : Provider} (hwf : WellFormed pder) (sid : String) :
    WellFormed (SessionDestroy pder sid).1 := by
  cases hg : mapGet pder.sessions sid with
  | none => rw [SessionDestroy_none hg]; exact hwf
  | some a => rw [SessionDestroy_some hg]; exact wf_remove hwf hg

/-! ## The sweep -/

theorem gcStep_nil {pder : Provider} (maxlifetime : Int) (now : Time) (hl : pder.list = []) :
    gcStep pder maxlifetime now = none := by
  simp [gcStep, Back, hl]

theorem wf_heap_some {pder : Provider} (hwf : WellFormed pder) {e : Nat} (he : e ∈ pder.list) :
    ∃ st, pder.heap[e]? = some st ∧ mapGet pder.sessions st.sid = some e := by
  obtain ⟨k, hk⟩ := hwf.order e he
  have h2 := (hwf.index k e hk).2
  unfold SessionID at h2
  cases hh : pder.heap[e]? with
  | none => rw [hh] at h2; simp at h2
  | some st =>
    rw [hh] at h2
    simp at h2
    exact ⟨st, rfl, by rw [h2]; exact hk⟩

theorem gcStep_concat {pder : Provider} (hwf : WellFormed pder) (maxlifetime : Int) (now : Time)
    {l : List Nat} {e : Nat} (hl : pder.list = l ++ [e]) :
    ∃ st, pder.heap[e]? = some st ∧ mapGet pder.sessions st.sid = some e ∧
      gcStep pder maxlifetime now =
        if expired maxlifetime now st then
          some { pder with list := l, sessions := mapDelete pder.sessions st.sid }
        else none := by
  have he : e ∈ pder.list := by simp [hl]
  obtain ⟨st, hst, hk⟩ := wf_heap_some hwf he
  refine ⟨st, hst, hk, ?_⟩
  have hnd := hwf.nodup
  rw [hl] at hnd
  have hnot : e ∉ l := by
    intro h
    have := (List.nodup_append.mp hnd).2.2
    exact this h (List.mem_singleton_self e)
  have hrem : Remove pder.list e = l := by
    simp [Remove, hl, List.erase_append_right _ hnot]
  simp only [gcStep, Back, hl, List.getLast?_concat, hst]
  rw [← hl, hrem]

theorem gcLoop_spec (maxlifetime : Int) (now : Time) :
    ∀ (fuel : Nat) (pder : Provider), WellFormed pder → pder.list.length ≤ fuel →
      WellFormed (gcLoop maxlifetime now fuel pder) ∧
      (gcLoop maxlifetime now fuel pder).heap = pder.heap ∧
      (gcLoop maxlifetime now fuel pder).list =
        pder.list.rdropWhile (expiredAt pder.heap maxlifetime now) ∧
      (∀ k e, mapGet (gcLoop maxlifetime now fuel pder).sessions k = some e ↔
        (mapGet pder.sessions k = some e ∧ e ∈ (gcLoop maxlifetime now fuel pder).list)) ∧
      gcStep (gcLoop maxlifetime now fuel pder) maxlifetime now = none := by
  intro fuel
  induction fuel with
  | zero =>
    intro pder hwf hlen
    have hl : pder.list = [] := List.length_eq_zero.mp (Nat.le_zero.mp hlen)
    refine ⟨hwf, rfl, by simp [gcLoop, hl], ?_, gcStep_nil _ _ hl⟩
    intro k e
    constructor
    · intro h
      exact ⟨h, (hwf.index k e h).1⟩
    · intro h
      exact h.1
  | succ fuel ih =>
    intro pder hwf hlen
    rcases List.eq_nil_or_concat pder.list with hl | ⟨l, e, hl⟩
    · have hs := gcStep_nil maxlifetime now hl
      have hg : gcLoop maxlifetime now (fuel + 1) pder = pder := by simp [gcLoop, hs]
      rw [hg]
      refine ⟨hwf, rfl, by simp [hl], ?_, hs⟩
      intro k e
      exact ⟨fun h => ⟨h, (hwf.index k e h).1⟩, fun h => h.1⟩
    · rw [List.concat_eq_append] at hl
      obtain ⟨st, hst, hk, hs⟩ := gcStep_concat hwf maxlifetime now hl
      by_cases hx : expired maxlifetime now st = true
      · rw [if_pos hx] at hs
        have hg : gcLoop maxlifetime now (fuel + 1) pder =
            gcLoop maxlifetime now fuel
              { pder with list := l, sessions := mapDelete pder.sessions st.sid } := by
          simp [gcLoop, hs]
        rw [hg]
        have hwf1 : WellFormed { pder with list := l, sessions := mapDelete pder.sessions st.sid } := by
          have h := wf_remove hwf hk
          have hnd := hwf.nodup
          rw [hl] at hnd
          have hnot : e ∉ l := fun h =>
            (List.nodup_append.mp hnd).2.2 h (List.mem_singleton_self e)
          have hrem : Remove pder.list e = l := by
            simp [Remove, hl, List.erase_append_right _ hnot]
          rw [hrem] at h
          exact h
        have hlen1 : l.length ≤ fuel := by
          have : pder.list.length = l.length + 1 := by simp [hl]
          omega
        obtain ⟨h1, h2, h3, h4, h5⟩ := ih _ hwf1 hlen1
        refine ⟨h1, h2, ?_, ?_, h5⟩
        · rw [h3, hl]
          have hxe : expiredAt pder.heap maxlifetime now e = true := by
            simp [expiredAt, hst, hx]
          rw [List.rdropWhile_concat_pos _ _ _ hxe]
        · intro k a
          rw [h4]
          simp only [mapGet_mapDelete]
          constructor
          · rintro ⟨ha, hmem⟩
            by_cases hks : k = st.sid
            · simp [hks] at ha
            · simp [hks] at ha
              exact ⟨ha, hmem⟩
          · rintro ⟨ha, hmem⟩
            refine ⟨?_, hmem⟩
            have hks : k ≠ st.sid := by
              intro hks
              rw [hks, hk] at ha
              have hae : e = a := Option.some.inj ha
              subst hae
              have hsub : e ∈ l := by
                have := h3 ▸ hmem
                exact (List.rdropWhile_prefix _ _).subset this
              have hnd := hwf.nodup
              rw [hl] at hnd
              exact (List.nodup_append.mp hnd).2.2 hsub (List.mem_singleton_self e)
            simp [hks, ha]
      · rw [if_neg hx] at hs
        have hg : gcLoop maxlifetime now (fuel + 1) pder = pder := by simp [gcLoop, hs]
        rw [hg]
        refine ⟨hwf, rfl, ?_, ?_, hs⟩
        · rw [hl]
          have hxe : ¬ expiredAt pder.heap maxlifetime now e = true := by
            simp [expiredAt, hst, hx]
          rw [List.rdropWhile_concat_neg _ _ _ hxe]
        · intro k a
          exact ⟨fun h => ⟨h, (hwf.index k a h).1⟩, fun h => h.1⟩

theorem wf_gc {pder : Provider} (hwf : WellFormed pder) (maxlifetime : Int) (now : Time) :
    WellFormed (SessionGC pder maxlifetime now) :=
  (gcLoop_spec maxlifetime now _ pder hwf (Nat.le_refl _)).1

theorem reachable_wf {pder : Provider} (h : Reachable pder) : WellFormed pder := by
  induction h with
  | new => exact wf_new
  | init pder sid now _ ih => exact wf_init ih sid now
  | update pder sid now _ ih => exact wf_update ih sid now
  | destroy pder sid _ ih => exact wf_destroy ih sid
  | gc pder m now _ ih => exact wf_gc ih m now

theorem wrapInt64_eq {x : Int} (h1 : -9223372036854775808 ≤ x) (h2 : x < 9223372036854775808) :
    wrapInt64 x = x := by
  unfold wrapInt64
  omega

theorem Unix_mono {a b : Time} (h : a.wall ≤ b.wall) : a.Unix ≤ b.Unix := by
  unfold Time.Unix
  omega

theorem rdropWhile_filterMap (heap : List SessionStore) (maxlifetime : Int) (now : Time) :
    ∀ l : List Nat, (∀ e ∈ l, e < heap.length) →
      (l.rdropWhile (expiredAt heap maxlifetime now)).filterMap (fun e => heap[e]?) =
        (l.filterMap (fun e => heap[e]?)).rdropWhile (expired maxlifetime now) := by
  intro l
  induction l using List.reverseRecOn with
  | nil => intro _; simp
  | append_singleton l e ih =>
    intro hlt
    have he : e < heap.length := hlt e (by simp)
    have hl : ∀ x ∈ l, x < heap.length := fun x hx => hlt x (by simp [hx])
    have hget : heap[e]? = some heap[e] := List.getElem?_eq_getElem he
    have hfm : (l ++ [e]).filterMap (fun e => heap[e]?) =
        l.filterMap (fun e => heap[e]?) ++ [heap[e]] := by
      simp [List.filterMap_append, hget]
    rw [hfm]
    by_cases hx : expired maxlifetime now heap[e] = true
    · have hxe : expiredAt heap maxlifetime now e = true := by simp [expiredAt, hget, hx]
      rw [List.rdropWhile_concat_pos _ _ _ hxe, List.rdropWhile_concat_pos _ _ _ hx]
      exact ih hl
    · have hxe : ¬ expiredAt heap maxlifetime now e = true := by simp [expiredAt, hget, hx]
      rw [List.rdropWhile_concat_neg _ _ _ hxe, List.rdropWhile_concat_neg _ _ _ hx]
      exact hfm

theorem records_gc {pder : Provider} (hwf : WellFormed pder) (maxlifetime : Int) (now : Time) :
    records (SessionGC pder maxlifetime now) =
      (records pder).rdropWhile (expired maxlifetime now) := by
  obtain ⟨_, h2, h3, _, _⟩ := gcLoop_spec maxlifetime now _ pder hwf (Nat.le_refl _)
  unfold records SessionGC
  rw [h2, h3]
  exact rdropWhile_filterMap pder.heap maxlifetime now pder.list (fun e he => wf_lt hwf he)

theorem rdropWhile_eq_filter {α : Type} (p : α → Bool) :
    ∀ l : List α, l.Pairwise (fun a b => p a = true → p b = true) →
      l.rdropWhile p = l.filter (fun x => !p x) := by
  intro l
  induction l using List.reverseRecOn with
  | nil => intro _; simp
  | append_singleton l x ih =>
    intro hpw
    have hpw2 := List.pairwise_append.mp hpw
    by_cases hx : p x = true
    · rw [List.rdropWhile_concat_pos _ _ _ hx, ih hpw2.1]
      simp [List.filter_append, hx]
    · rw [List.rdropWhile_concat_neg _ _ _ hx]
      have hall : ∀ a ∈ l, (!p a) = true := by
        intro a ha
        have := hpw2.2.2 a ha x (List.mem_singleton_self x)
        cases hpa : p a with
        | false => rfl
        | true => exact absurd (this hpa) hx
      have hfl : l.filter (fun x => !p x) = l := List.filter_eq_self.mpr hall
      simp [List.filter_append, hx, hfl]

/-! ## Sids of a well-formed provider -/

theorem wf_sid_inj {pder : Provider} (hwf : WellFormed pder) {a b : Nat} {k : String}
    (ha : a ∈ pder.list) (hb : b ∈ pder.list)
    (hka : SessionID pder a = some k) (hkb : SessionID pder b = some k) : a = b := by
  obtain ⟨k1, h1⟩ := hwf.order a ha
  obtain ⟨k2, h2⟩ := hwf.order b hb
  have e1 := (hwf.index k1 a h1).2
  have e2 := (hwf.index k2 b h2).2
  rw [hka] at e1
  rw [hkb] at e2
  have e3 : k1 = k := (Option.some.inj e1).symm
  have e4 : k2 = k := (Option.some.inj e2).symm
  rw [e3] at h1
  rw [e4, h1] at h2
  exact Option.some.inj h2

theorem sids_eq (pder : Provider) :
    sids pder = pder.list.filterMap (fun e => SessionID pder e) := by
  unfold sids records SessionID
  rw [List.map_filterMap]

theorem wf_sids_nodup {pder : Provider} (hwf : WellFormed pder) : (sids pder).Nodup := by
  rw [sids_eq]
  have hp : pder.list.Pairwise (fun x y => x ∈ pder.list ∧ y ∈ pder.list ∧ x ≠ y) :=
    List.Pairwise.and_mem.mp hwf.nodup
  refine List.Pairwise.filterMap _ ?_ hp
  intro a b hab k hk k2 hk2 hkk
  subst hkk
  exact hab.2.2 (wf_sid_inj hwf hab.1 hab.2.1 hk hk2)

theorem filterMap_heap_length (heap : List SessionStore) :
    ∀ l : List Nat, (∀ e ∈ l, e < heap.length) →
      (l.filterMap (fun e => heap[e]?)).length = l.length := by
  intro l
  induction l with
  | nil => intro _; rfl
  | cons a l ih =>
    intro hl
    have ha : a < heap.length := hl a (by simp)
    have hget : heap[a]? = some heap[a] := List.getElem?_eq_getElem ha
    rw [List.filterMap_cons_some hget]
    simp [ih (fun e he => hl e (by simp [he]))]

/-! ## Creation -/

/-- C1: the recency order is not kept by `SessionInit`: creating "A" at second 0
and "B" at second 1 on a new provider leaves the list A, B front to back, which
is not sorted by `timeAccessed` descending. -/
theorem init_breaks_recency_order :
    records stateAB =
      [{ sid := "A", timeAccessed := { wall := 0 }, value := [] },
       { sid := "B", timeAccessed := { wall := 1000000000 }, value := [] }] ∧
    ¬ SortedDesc stateAB := by
  decide

/-- C3: in every reachable state each key of `sessions` refers to an element of
the list whose record has that sid, each element of the list is referred to by
exactly one key, and no two elements of the list carry the same sid. -/
theorem reachable_index_order (pder : Provider) (h : Reachable pder) :
    (∀ k e, mapGet pder.sessions k = some e →
      e ∈ pder.list ∧ ∃ st, pder.heap[e]? = some st ∧ st.sid = k) ∧
    (∀ e, e ∈ pder.list → ∃! k, mapGet pder.sessions k = some e) ∧
    pder.list.Nodup ∧ (sids pder).length = pder.list.length ∧ (sids pder).Nodup := by
  have hwf := reachable_wf h
  refine ⟨?_, ?_, hwf.nodup, ?_, ?_⟩
  · intro k e hk
    obtain ⟨h1, h2⟩ := hwf.index k e hk
    refine ⟨h1, ?_⟩
    unfold SessionID at h2
    cases hh : pder.heap[e]? with
    | none => rw [hh] at h2; simp at h2
    | some st =>
      rw [hh] at h2
      exact ⟨st, rfl, Option.some.inj h2⟩
  · intro e he
    obtain ⟨k, hk⟩ := hwf.order e he
    refine ⟨k, hk, ?_⟩
    intro k2 hk2
    have h1 := (hwf.index k e hk).2
    have h2 := (hwf.index k2 e hk2).2
    rw [h1] at h2
    exact (Option.some.inj h2).symm
  · unfold sids records
    rw [List.length_map]
    exact filterMap_heap_length pder.heap pder.list (fun e he => wf_lt hwf he)
  · exact wf_sids_nodup hwf

/-- A reachable state, for C3: after creating "A" and "B" the sids of the list
are pairwise different. -/
theorem reachable_index_order_witness : (sids stateAB).Nodup :=
  (reachable_index_order stateAB
    (Reachable.init _ _ _ (Reachable.init _ _ _ Reachable.new))).2.2.2.2

/-- C4: `SessionInit` of a sid that is already a key of `sessions` returns an
error and no session and leaves the provider (map, list and every record) as
it was. -/
theorem init_duplicate (pder : Provider) (sid : String) (now : Time)
    (h : (mapGet pder.sessions sid).isSome = true) :
    (SessionInit pder sid now).1 = pder ∧
    ∃ msg, (SessionInit pder sid now).2 = Except.error msg := by
  obtain ⟨a, ha⟩ := Option.isSome_iff_exists.mp h
  rw [SessionInit_some now ha]
  exact ⟨rfl, _, rfl⟩

/-- A duplicate creation, for C4: creating "A" again in the state that holds
"A" changes nothing. -/
theorem init_duplicate_witness :
    (SessionInit stateA "A" { wall := 7000000000 }).1 = stateA :=
  (init_duplicate stateA "A" { wall := 7000000000 } (by decide)).1

/-- C5: `SessionInit` of a sid that is not a key of `sessions` succeeds, and a
following `SessionRead` of that sid succeeds and returns the new record: its
`SessionID()` is the sid, its `timeAccessed` is the creation time, its
attribute map is empty and `Get` returns nil for every key. -/
theorem init_then_read (pder : Provider) (sid : String) (now : Time)
    (h : mapGet pder.sessions sid = none) :
    ∃ st, (SessionInit pder sid now).2 = Except.ok st ∧
      SessionRead (SessionInit pder sid now).1 sid = Except.ok st ∧
      SessionID (SessionInit pder sid now).1 st = some sid ∧
      (SessionInit pder sid now).1.heap[st]? =
        some { sid := sid, timeAccessed := now, value := [] } ∧
      ∀ (key : Any) (later : Time),
        (Get (SessionInit pder sid now).1 st key later).2 = Any.nil := by
  rw [SessionInit_none now h]
  refine ⟨pder.heap.length, rfl, ?_, ?_, ?_, ?_⟩
  · simp [SessionRead, mapGet_mapSet]
  · simp [SessionID]
  · simp
  · intro key later
    simp [Get, mapGet]

/-- A fresh creation, for C5: "B" is not a key of the state that holds "A", and
reading "B" after creating it returns the record just made. -/
theorem init_then_read_witness :
    ∃ st, (SessionInit stateA "B" { wall := 1000000000 }).2 = Except.ok st ∧
      SessionRead (SessionInit stateA "B" { wall := 1000000000 }).1 "B" = Except.ok st ∧
      SessionID (SessionInit stateA "B" { wall := 1000000000 }).1 st = some "B" ∧
      (SessionInit stateA "B" { wall := 1000000000 }).1.heap[st]? =
        some { sid := "B", timeAccessed := { wall := 1000000000 }, value := [] } ∧
      ∀ (key : Any) (later : Time),
        (Get (SessionInit stateA "B" { wall := 1000000000 }).1 st key later).2 = Any.nil :=
  init_then_read stateA "B" { wall := 1000000000 } (by decide)

/-- C6: `SessionInit` puts the new record at the back of the list, not at the
front: creating "A", "B", "C" on a new provider gives the front-to-back order
A, B, C, and touching "A" afterwards leaves A, B, C. -/
theorem init_pushes_back :
    sids stateABC = ["A", "B", "C"] ∧
    sids (SessionUpdate stateABC "A" { wall := 3000000000 }).1 = ["A", "B", "C"] := by
  decide

/-! ## Touch -/

/-- C8: `SessionUpdate` of a sid that is not a key of `sessions` returns a nil
error and leaves the provider (map, list and every record) as it was. -/
theorem update_absent (pder : Provider) (sid : String) (now : Time)
    (h : mapGet pder.sessions sid = none) :
    SessionUpdate pder sid now = (pder, none) :=
  SessionUpdate_none now h

/-- An absent sid, for C8: touching "Z" in the state that holds "A" and "B". -/
theorem update_absent_witness :
    SessionUpdate stateAB "Z" { wall := 5000000000 } = (stateAB, none) :=
  update_absent stateAB "Z" { wall := 5000000000 } (by decide)

/-! ## Destroy -/

/-- C9: `SessionDestroy` returns a nil error for every state and sid, destroying
a sid twice gives the state of destroying it once, and destroying a sid that is
not a key of `sessions` leaves the state as it was. -/
theorem destroy_idempotent (pder : Provider) (sid : String) :
    (SessionDestroy pder sid).2 = none ∧
    SessionDestroy (SessionDestroy pder sid).1 sid = ((SessionDestroy pder sid).1, none) ∧
    (mapGet pder.sessions sid = none → (SessionDestroy pder sid).1 = pder) := by
  cases hg : mapGet pder.sessions sid with
  | none =>
    rw [SessionDestroy_none hg]
    exact ⟨rfl, SessionDestroy_none hg, fun _ => rfl⟩
  | some a =>
    rw [SessionDestroy_some hg]
    refine ⟨rfl, ?_, fun h => by simp at h⟩
    apply SessionDestroy_none
    simp [mapGet_mapDelete]

/-- Destroying twice and destroying an absent sid, for C9: "A" and "Z" in the
state that holds "A" and "B". -/
theorem destroy_idempotent_witness :
    SessionDestroy (SessionDestroy stateAB "A").1 "A" = ((SessionDestroy stateAB "A").1, none) ∧
    (SessionDestroy stateAB "Z").1 = stateAB :=
  ⟨(destroy_idempotent stateAB "A").2.1, (destroy_idempotent stateAB "Z").2.2 (by decide)⟩

theorem getElem?_setTimeAccessed_ne (heap : List SessionStore) {a x : Nat} (now : Time)
    (h : x ≠ a) : (setTimeAccessed heap a now)[x]? = heap[x]? := by
  unfold setTimeAccessed
  cases ha : heap[a]? with
  | none => rfl
  | some st =>
    have h2 : ¬ a = x := fun e => h e.symm
    simp [List.getElem?_set, h2]

theorem getElem?_setTimeAccessed_self (heap : List SessionStore) {a : Nat} {st : SessionStore}
    (now : Time) (h : heap[a]? = some st) :
    (setTimeAccessed heap a now)[a]? = some { st with timeAccessed := now } := by
  have hlt : a < heap.length := by
    by_contra hlt
    rw [List.getElem?_eq_none (Nat.le_of_not_lt hlt)] at h
    simp at h
  simp [setTimeAccessed, h, List.getElem?_set, hlt]

/-- C7: in a well-formed state, `SessionUpdate` of a present sid at time `now`
makes its record the front of the list with `timeAccessed = now`; the other
elements follow in their previous order with the records they had, and
`sessions` is the same map. -/
theorem update_present (pder : Provider) (sid : String) (now : Time) (e : Nat)
    (hwf : WellFormed pder) (h : mapGet pder.sessions sid = some e) :
    ∃ st, pder.heap[e]? = some st ∧ st.sid = sid ∧
      (SessionUpdate pder sid now).1.list = e :: pder.list.erase e ∧
      (SessionUpdate pder sid now).1.heap[e]? = some { st with timeAccessed := now } ∧
      (∀ x, x ≠ e → (SessionUpdate pder sid now).1.heap[x]? = pder.heap[x]?) ∧
      records (SessionUpdate pder sid now).1 =
        { st with timeAccessed := now } ::
          (pder.list.erase e).filterMap (fun x => pder.heap[x]?) ∧
      (SessionUpdate pder sid now).1.sessions = pder.sessions ∧
      (SessionUpdate pder sid now).2 = none := by
  obtain ⟨hmem, hsid⟩ := hwf.index sid e h
  obtain ⟨st, hst, hk⟩ := wf_heap_some hwf hmem
  have hstsid : st.sid = sid := by
    unfold SessionID at hsid
    rw [hst] at hsid
    exact Option.some.inj hsid
  rw [SessionUpdate_some now h]
  have hlist : MoveToFront pder.list e = e :: pder.list.erase e := by
    simp [MoveToFront, hmem]
  refine ⟨st, hst, hstsid, hlist, getElem?_setTimeAccessed_self _ now hst,
    fun x hx => getElem?_setTimeAccessed_ne _ now hx, ?_, rfl, rfl⟩
  show (MoveToFront pder.list e).filterMap (fun x => (setTimeAccessed pder.heap e now)[x]?) = _
  rw [hlist, List.filterMap_cons_some (getElem?_setTimeAccessed_self _ now hst)]
  congr 1
  apply List.filterMap_congr
  intro x hx
  have hne : x ≠ e := fun hxe =>
    ((List.Nodup.mem_erase_iff hwf.nodup).mp hx).1 hxe
  exact getElem?_setTimeAccessed_ne _ now hne

/-- A touch, for C7: touching "A" at second 3 in the state that holds "A", "B"
and "C". -/
theorem update_present_witness :
    ∃ st, stateABC.heap[0]? = some st ∧ st.sid = "A" ∧
      (SessionUpdate stateABC "A" { wall := 3000000000 }).1.list = 0 :: stateABC.list.erase 0 ∧
      (SessionUpdate stateABC "A" { wall := 3000000000 }).1.heap[0]? =
        some { st with timeAccessed := { wall := 3000000000 } } ∧
      (∀ x, x ≠ 0 →
        (SessionUpdate stateABC "A" { wall := 3000000000 }).1.heap[x]? = stateABC.heap[x]?) ∧
      records (SessionUpdate stateABC "A" { wall := 3000000000 }).1 =
        { st with timeAccessed := { wall := 3000000000 } } ::
          (stateABC.list.erase 0).filterMap (fun x => stateABC.heap[x]?) ∧
      (SessionUpdate stateABC "A" { wall := 3000000000 }).1.sessions = stateABC.sessions ∧
      (SessionUpdate stateABC "A" { wall := 3000000000 }).2 = none :=
  update_present stateABC "A" { wall := 3000000000 } 0
    (reachable_wf (Reachable.init _ _ _ (Reachable.init _ _ _ (Reachable.init _ _ _ Reachable.new))))
    (by decide)

/-- C10: in a well-formed state, after `SessionDestroy` of a present sid the sid
is a key of `sessions` no more, no element of the list carries it and
`SessionRead` of it fails; the list is the old one without that element, the
records are untouched and the other keys keep their elements.  `SessionRead`
fails in the same way for the sid of every element that `SessionGC` removed
from the list. -/
theorem destroy_present (pder : Provider) (sid : String) (e : Nat)
    (hwf : WellFormed pder) (h : mapGet pder.sessions sid = some e) :
    mapGet (SessionDestroy pder sid).1.sessions sid = none ∧
    sid ∉ sids (SessionDestroy pder sid).1 ∧
    SessionRead (SessionDestroy pder sid).1 sid = Except.error "session not valid!" ∧
    (SessionDestroy pder sid).1.list = pder.list.erase e ∧
    (SessionDestroy pder sid).1.heap = pder.heap ∧
    (∀ k, k ≠ sid → mapGet (SessionDestroy pder sid).1.sessions k = mapGet pder.sessions k) ∧
    (∀ x, x ∈ pder.list → x ≠ e → x ∈ (SessionDestroy pder sid).1.list) ∧
    (∀ (maxlifetime : Int) (now : Time) (x : Nat) (k : String),
      x ∈ pder.list → x ∉ (SessionGC pder maxlifetime now).list → SessionID pder x = some k →
      SessionRead (SessionGC pder maxlifetime now) k = Except.error "session not valid!") := by
  have hwf2 := wf_destroy hwf sid
  rw [SessionDestroy_some h] at hwf2 ⊢
  have hnone : mapGet (mapDelete pder.sessions sid) sid = none := by
    simp [mapGet_mapDelete]
  refine ⟨hnone, ?_, ?_, rfl, rfl, ?_, ?_, ?_⟩
  · intro hin
    rw [sids_eq] at hin
    obtain ⟨x, hx, hxs⟩ := List.mem_filterMap.mp hin
    have hx0 : x ∈ pder.list.erase e := hx
    have hxs0 : SessionID pder x = some sid := hxs
    have hx1 := (List.Nodup.mem_erase_iff hwf.nodup).mp hx0
    exact hx1.1 (wf_sid_inj hwf hx1.2 (hwf.index sid e h).1 hxs0 (hwf.index sid e h).2)
  · simp [SessionRead, hnone]
  · intro k hk
    simp [mapGet_mapDelete, hk]
  · intro x hx hne
    exact (List.Nodup.mem_erase_iff hwf.nodup).mpr ⟨hne, hx⟩
  · intro m now x k hx hnot hk
    obtain ⟨_, _, _, h4, _⟩ := gcLoop_spec m now _ pder hwf (Nat.le_refl _)
    cases hg : mapGet (SessionGC pder m now).sessions k with
    | none => simp [SessionRead, hg]
    | some y =>
      exfalso
      obtain ⟨hy1, hy2⟩ := (h4 k y).mp hg
      have hy3 := hwf.index k y hy1
      have hxy : x = y := wf_sid_inj hwf hx hy3.1 hk hy3.2
      exact hnot (hxy ▸ hy2)

/-- A destroy and a sweep, for C10: after destroying "A" in the state that
holds "A" and "B" reading "A" fails, and so it does after the sweep of second 5
with `maxlifetime = 2` has removed "A" (last touched at second 0) from the
state where "B" was touched at second 3. -/
theorem destroy_present_witness :
    SessionRead (SessionDestroy stateAB "A").1 "A" = Except.error "session not valid!" ∧
    SessionRead (SessionGC stateBA 2 { wall := 5000000000 }) "A" =
      Except.error "session not valid!" :=
  ⟨(destroy_present stateAB "A" 0
      (reachable_wf (Reachable.init _ _ _ (Reachable.init _ _ _ Reachable.new)))
      (by decide)).2.2.1,
   (destroy_present stateBA "A" 0
      (reachable_wf (Reachable.update _ _ _
        (Reachable.init _ _ _ (Reachable.init _ _ _ Reachable.new))))
      (by decide)).2.2.2.2.2.2.2 2 { wall := 5000000000 } 0 "A"
      (by decide) (by decide) (by decide)⟩

/-! ## Sweep -/

/-- C2, as stated, fails on reachable states in three ways.  A record idle for
exactly `maxlifetime` seconds stays ("A" of second 0, swept at second 5 with
`maxlifetime = 5`).  A record behind a newer one at the back stays however idle
it is ("A" of second 0 and "B" of second 10, swept at second 10 with
`maxlifetime = 5`).  A record that is not idle at all is removed when the
`int64` sum wraps ("A" of second 1 swept at second 1 with the largest
`maxlifetime`). -/
theorem sweep_not_exact :
    ¬ SweepExact stateA 5 { wall := 5000000000 } ∧
    ¬ SweepExact stateLateB 5 { wall := 10000000000 } ∧
    ¬ SweepExact stateA1 9223372036854775807 { wall := 1000000000 } := by
  refine ⟨?_, ?_, ?_⟩
  · intro h
    have h1 := (h { sid := "A", timeAccessed := { wall := 0 }, value := [] }).mp (by decide)
    exact absurd h1.2 (by decide)
  · intro h
    have h1 := (h { sid := "A", timeAccessed := { wall := 0 }, value := [] }).mp (by decide)
    exact absurd h1.2 (by decide)
  · intro h
    have h1 := (h { sid := "A", timeAccessed := { wall := 1000000000 }, value := [] }).mpr
      ⟨by decide, by decide⟩
    exact absurd h1 (by decide)

/-- C2, amended: in a well-formed state whose list is sorted by `timeAccessed`
descending and where the sum of the eviction test stays in `int64`, the records
left by `SessionGC` are exactly the records with
`timeAccessed.Unix() + maxlifetime >= now.Unix()`, in their order and with the
content they had; the removed ones are those idle for more than `maxlifetime`
whole seconds. -/
theorem gc_sorted_exact (pder : Provider) (maxlifetime : Int) (now : Time)
    (hwf : WellFormed pder) (hs : SortedDesc pder) (ho : NoOverflow pder maxlifetime) :
    records (SessionGC pder maxlifetime now) =
      (records pder).filter
        (fun st => decide (now.Unix ≤ st.timeAccessed.Unix + maxlifetime)) ∧
    (SessionGC pder maxlifetime now).heap = pder.heap := by
  have hexp : ∀ st ∈ records pder,
      (!expired maxlifetime now st) = decide (now.Unix ≤ st.timeAccessed.Unix + maxlifetime) := by
    intro st hst
    obtain ⟨h1, h2⟩ := ho st hst
    unfold expired
    rw [wrapInt64_eq h1 h2]
    by_cases hc : now.Unix ≤ st.timeAccessed.Unix + maxlifetime
    · simp [hc]
    · simp [hc]
      omega
  have hpw : (records pder).Pairwise
      (fun a b => expired maxlifetime now a = true → expired maxlifetime now b = true) := by
    have hs2 : (records pder).Pairwise (fun a b => a ∈ records pder ∧ b ∈ records pder ∧
        b.timeAccessed.wall ≤ a.timeAccessed.wall) := List.Pairwise.and_mem.mp hs
    refine hs2.imp ?_
    intro a b hab ha
    obtain ⟨hma, hmb, hle⟩ := hab
    have ea := hexp a hma
    have eb := hexp b hmb
    rw [ha] at ea
    have hu := Unix_mono hle
    cases hb : expired maxlifetime now b with
    | true => rfl
    | false =>
      rw [hb] at eb
      simp at ea eb
      omega
  refine ⟨?_, (gcLoop_spec maxlifetime now _ pder hwf (Nat.le_refl _)).2.1⟩
  rw [records_gc hwf, rdropWhile_eq_filter _ _ hpw]
  exact List.filter_congr hexp

/-- A sweep of a sorted state, for C2: "B" touched at second 3 in front of "A"
of second 0, swept at second 5 with `maxlifetime = 2`. -/
theorem gc_sorted_exact_witness :
    records (SessionGC stateBA 2 { wall := 5000000000 }) =
      (records stateBA).filter
        (fun st => decide (({ wall := 5000000000 } : Time).Unix ≤ st.timeAccessed.Unix + 2)) ∧
    (SessionGC stateBA 2 { wall := 5000000000 }).heap = stateBA.heap :=
  gc_sorted_exact stateBA 2 { wall := 5000000000 }
    (reachable_wf (Reachable.update _ _ _
      (Reachable.init _ _ _ (Reachable.init _ _ _ Reachable.new))))
    (by decide) (by decide)

/-! ## Read -/

/-- C11: `SessionRead` returns the element stored under the sid with a nil
error exactly when the sid is a key of `sessions`, and the error
"session not valid!" otherwise.  It only reads `sessions`: the provider after
the call is the provider before it. -/
theorem read_iff_key (pder : Provider) (sid : String) :
    (∀ e, SessionRead pder sid = Except.ok e ↔ mapGet pder.sessions sid = some e) ∧
    ((∃ msg, SessionRead pder sid = Except.error msg) ↔ mapGet pder.sessions sid = none) := by
  unfold SessionRead
  cases hg : mapGet pder.sessions sid with
  | none => simp
  | some a =>
    refine ⟨fun e => ?_, ?_⟩
    · constructor
      · intro h
        cases h
        rfl
      · intro h
        cases h
        rfl
    · simp

/-! ## Attribute access -/

theorem getElem?_set_self_some {heap : List SessionStore} {a : Nat} {st : SessionStore}
    (s : SessionStore) (h : heap[a]? = some st) : (heap.set a s)[a]? = some s := by
  have hlt : a < heap.length := by
    by_contra hlt
    rw [List.getElem?_eq_none (Nat.le_of_not_lt hlt)] at h
    simp at h
  simp [List.getElem?_set, hlt]

/-- The state after a touch of a live record: it is the front element and its
`timeAccessed` is the time of the call. -/
theorem touch_front (pder : Provider) (st : Nat) (s : SessionStore) (now : Time)
    (hmem : st ∈ pder.list) (hs : pder.heap[st]? = some s)
    (hk : mapGet pder.sessions s.sid = some st) :
    (SessionUpdate pder s.sid now).1.list.head? = some st ∧
    (SessionUpdate pder s.sid now).1.heap[st]? = some { s with timeAccessed := now } := by
  rw [SessionUpdate_some now hk]
  refine ⟨?_, getElem?_setTimeAccessed_self _ now hs⟩
  simp [MoveToFront, hmem]

/-- C13: for a record that is live in a well-formed provider (its sid is a key
of `sessions` and maps to this record), each of `Get`, `Set` and `Delete`
called at time `now` leaves the record as the front element of the list with
`timeAccessed = now`, whatever the key and the value. -/
theorem access_touches (pder : Provider) (st : Nat) (s : SessionStore) (now : Time)
    (key value : Any) (hwf : WellFormed pder) (hs : pder.heap[st]? = some s)
    (hk : mapGet pder.sessions s.sid = some st) :
    ((Get pder st key now).1.list.head? = some st ∧
      ((Get pder st key now).1.heap[st]?).map SessionStore.timeAccessed = some now) ∧
    ((Set pder st key value now).1.list.head? = some st ∧
      ((Set pder st key value now).1.heap[st]?).map SessionStore.timeAccessed = some now) ∧
    ((Delete pder st key now).1.list.head? = some st ∧
      ((Delete pder st key now).1.heap[st]?).map SessionStore.timeAccessed = some now) := by
  have hmem : st ∈ pder.list := (hwf.index s.sid st hk).1
  refine ⟨?_, ?_, ?_⟩
  · have h := touch_front pder st s now hmem hs hk
    have hg : (Get pder st key now).1 = (SessionUpdate pder s.sid now).1 := by
      unfold Get
      rw [hs]
      dsimp only
      split <;> rfl
    rw [hg]
    exact ⟨h.1, by rw [h.2]; rfl⟩
  · have hs1 := getElem?_set_self_some { s with value := mapSet s.value key value } hs
    have h := touch_front
      { pder with heap := pder.heap.set st { s with value := mapSet s.value key value } } st
      { s with value := mapSet s.value key value } now hmem hs1 hk
    have hg : (Set pder st key value now).1 = (SessionUpdate
        { pder with heap := pder.heap.set st { s with value := mapSet s.value key value } }
        s.sid now).1 := by
      unfold Set
      rw [hs]
    rw [hg]
    exact ⟨h.1, by rw [h.2]; rfl⟩
  · have hs1 := getElem?_set_self_some { s with value := mapDelete s.value key } hs
    have h := touch_front
      { pder with heap := pder.heap.set st { s with value := mapDelete s.value key } } st
      { s with value := mapDelete s.value key } now hmem hs1 hk
    have hg : (Delete pder st key now).1 = (SessionUpdate
        { pder with heap := pder.heap.set st { s with value := mapDelete s.value key } }
        s.sid now).1 := by
      unfold Delete
      rw [hs]
    rw [hg]
    exact ⟨h.1, by rw [h.2]; rfl⟩

/-- An access, for C13: `Get`, `Set` and `Delete` at second 9 on the record of
"B" in the state that holds "A" and "B"; the key "k" is not in its attribute
map. -/
theorem access_touches_witness :
    ((Get stateAB 1 (Any.str "k") { wall := 9000000000 }).1.list.head? = some 1 ∧
      ((Get stateAB 1 (Any.str "k") { wall := 9000000000 }).1.heap[1]?).map
        SessionStore.timeAccessed = some { wall := 9000000000 }) ∧
    ((Set stateAB 1 (Any.str "k") (Any.int 3) { wall := 9000000000 }).1.list.head? = some 1 ∧
      ((Set stateAB 1 (Any.str "k") (Any.int 3) { wall := 9000000000 }).1.heap[1]?).map
        SessionStore.timeAccessed = some { wall := 9000000000 }) ∧
    ((Delete stateAB 1 (Any.str "k") { wall := 9000000000 }).1.list.head? = some 1 ∧
      ((Delete stateAB 1 (Any.str "k") { wall := 9000000000 }).1.heap[1]?).map
        SessionStore.timeAccessed = some { wall := 9000000000 }) :=
  access_touches stateAB 1 { sid := "B", timeAccessed := { wall := 1000000000 }, value := [] }
    { wall := 9000000000 } (Any.str "k") (Any.int 3)
    (reachable_wf (Reachable.init _ _ _ (Reachable.init _ _ _ Reachable.new)))
    (by decide) (by decide)

theorem expiredAt_pairwise {pder : Provider} (hwf : WellFormed pder) (hs : SortedDesc pder)
    {maxlifetime : Int} (ho : NoOverflow pder maxlifetime) (now : Time) :
    pder.list.Pairwise (fun a b => expiredAt pder.heap maxlifetime now a = true →
      expiredAt pder.heap maxlifetime now b = true) := by
  have hs1 : pder.list.Pairwise (fun a b => ∀ x ∈ pder.heap[a]?, ∀ y ∈ pder.heap[b]?,
      y.timeAccessed.wall ≤ x.timeAccessed.wall) := List.pairwise_filterMap.mp hs
  have hs2 := List.Pairwise.and_mem.mp hs1
  refine hs2.imp ?_
  intro a b hab ha
  obtain ⟨hma, hmb, hle⟩ := hab
  obtain ⟨x, hx, _⟩ := wf_heap_some hwf hma
  obtain ⟨y, hy, _⟩ := wf_heap_some hwf hmb
  have hxy := hle x hx y hy
  have hxr : x ∈ records pder := List.mem_filterMap.mpr ⟨a, hma, hx⟩
  have hyr : y ∈ records pder := List.mem_filterMap.mpr ⟨b, hmb, hy⟩
  obtain ⟨x1, x2⟩ := ho x hxr
  obtain ⟨y1, y2⟩ := ho y hyr
  have hu := Unix_mono hxy
  simp only [expiredAt, hx, hy, expired, wrapInt64_eq x1 x2, wrapInt64_eq y1 y2,
    decide_eq_true_eq] at ha ⊢
  omega

theorem rdropWhile_append_rtakeWhile {α : Type} (p : α → Bool) :
    ∀ l : List α, l.rdropWhile p ++ l.rtakeWhile p = l := by
  intro l
  induction l using List.reverseRecOn with
  | nil => simp
  | append_singleton l x ih =>
    by_cases hx : p x = true
    · rw [List.rdropWhile_concat_pos _ _ _ hx, List.rtakeWhile_concat_pos _ _ _ hx,
        ← List.append_assoc, ih]
    · rw [List.rdropWhile_concat_neg _ _ _ hx, List.rtakeWhile_concat_neg _ _ _ hx,
        List.append_nil]

/-! ## Threshold and early stop of the sweep -/

/-- C12, as stated, fails: "A" of second 0 is the back element and is idle for
exactly `maxlifetime = 5` seconds at second 5, and the sweep keeps it. -/
theorem threshold_not_inclusive :
    Back stateA.list = some 0 ∧
    stateA.heap[0]? = some { sid := "A", timeAccessed := { wall := 0 }, value := [] } ∧
    ({ wall := 5000000000 } : Time).wall - 0 = 5 * 1000000000 ∧
    0 ∈ (SessionGC stateA 5 { wall := 5000000000 }).list := by
  decide

/-- C12, amended: the threshold is exclusive.  When the sum of the eviction
test stays in `int64` on the back element, a back element idle for at most
`maxlifetime` whole seconds (exactly `maxlifetime` included) is kept and the
sweep changes nothing; in a well-formed state a back element idle for more
than `maxlifetime` whole seconds is removed. -/
theorem threshold_exclusive (pder : Provider) (maxlifetime : Int) (now : Time)
    (e : Nat) (st : SessionStore)
    (hb : Back pder.list = some e) (hst : pder.heap[e]? = some st)
    (h1 : -9223372036854775808 ≤ st.timeAccessed.Unix + maxlifetime)
    (h2 : st.timeAccessed.Unix + maxlifetime < 9223372036854775808) :
    (now.Unix - st.timeAccessed.Unix ≤ maxlifetime →
      SessionGC pder maxlifetime now = pder) ∧
    (WellFormed pder → maxlifetime < now.Unix - st.timeAccessed.Unix →
      e ∉ (SessionGC pder maxlifetime now).list) := by
  have hex : expired maxlifetime now st = decide (st.timeAccessed.Unix + maxlifetime < now.Unix) := by
    unfold expired
    rw [wrapInt64_eq h1 h2]
  obtain ⟨l, hl⟩ := List.getLast?_eq_some_iff.mp hb
  constructor
  · intro hle
    have hx : expired maxlifetime now st = false := by
      rw [hex]
      simp
      omega
    have hstep : gcStep pder maxlifetime now = none := by
      simp [gcStep, hb, hst, hx]
    unfold SessionGC
    rw [hl]
    simp [gcLoop, hstep]
  · intro hwf hlt
    have hx : expiredAt pder.heap maxlifetime now e = true := by
      simp only [expiredAt, hst, hex, decide_eq_true_eq]
      omega
    obtain ⟨_, _, h3, _, _⟩ := gcLoop_spec maxlifetime now _ pder hwf (Nat.le_refl _)
    unfold SessionGC
    rw [h3, hl, List.rdropWhile_concat_pos _ _ _ hx]
    intro hin
    have hsub : e ∈ l := (List.rdropWhile_prefix _ _).subset hin
    have hnd := hwf.nodup
    rw [hl] at hnd
    exact (List.nodup_append.mp hnd).2.2 hsub (List.mem_singleton_self e)

/-- The threshold, for C12: "A" of second 0, swept with `maxlifetime = 5`, is
kept at second 5 and removed at second 6. -/
theorem threshold_exclusive_witness :
    SessionGC stateA 5 { wall := 5000000000 } = stateA ∧
    0 ∉ (SessionGC stateA 5 { wall := 6000000000 }).list :=
  ⟨(threshold_exclusive stateA 5 { wall := 5000000000 } 0
      { sid := "A", timeAccessed := { wall := 0 }, value := [] }
      (by decide) (by decide) (by decide) (by decide)).1 (by decide),
   (threshold_exclusive stateA 5 { wall := 6000000000 } 0
      { sid := "A", timeAccessed := { wall := 0 }, value := [] }
      (by decide) (by decide) (by decide) (by decide)).2
      (reachable_wf (Reachable.init _ _ _ Reachable.new)) (by decide)⟩

/-- C19, as stated for every `maxlifetime`, fails when the `int64` sum wraps:
with "B" of second 10 in front of "A" of second 1 (a sorted list) and
`maxlifetime = 2^63 - 5`, the sum wraps on "B" only; the sweep stops at "A" and
keeps both, while "B" passes the eviction test. -/
theorem early_stop_not_filter :
    SortedDesc stateB10 ∧
    ¬ EarlyStopIsFilter stateB10 9223372036854775803 { wall := 10000000000 } := by
  refine ⟨by decide, ?_⟩
  intro h
  exact absurd h.1 (by decide)

/-- C19, amended: in a well-formed state whose list is sorted by `timeAccessed`
descending and where the sum of the eviction test stays in `int64` on every
record, the sweep (back to front, stopping at the first record that fails the
test) leaves exactly the elements of the whole list that fail the eviction
test, in their order, with `sessions` restricted to them and the records
untouched. -/
theorem early_stop_is_filter (pder : Provider) (maxlifetime : Int) (now : Time)
    (hwf : WellFormed pder) (hs : SortedDesc pder) (ho : NoOverflow pder maxlifetime) :
    EarlyStopIsFilter pder maxlifetime now ∧
    (SessionGC pder maxlifetime now).heap = pder.heap ∧
    gcStep (SessionGC pder maxlifetime now) maxlifetime now = none := by
  obtain ⟨_, h2, h3, h4, h5⟩ := gcLoop_spec maxlifetime now _ pder hwf (Nat.le_refl _)
  refine ⟨⟨?_, h4⟩, h2, h5⟩
  unfold SessionGC
  rw [h3]
  exact rdropWhile_eq_filter _ _ (expiredAt_pairwise hwf hs ho now)

/-- A sorted sweep, for C19: "B" touched at second 3 in front of "A" of second
0, swept at second 5 with `maxlifetime = 2`. -/
theorem early_stop_is_filter_witness :
    (SessionGC stateBA 2 { wall := 5000000000 }).list =
      stateBA.list.filter (fun e => !expiredAt stateBA.heap 2 { wall := 5000000000 } e) :=
  (early_stop_is_filter stateBA 2 { wall := 5000000000 }
    (reachable_wf (Reachable.update _ _ _
      (Reachable.init _ _ _ (Reachable.init _ _ _ Reachable.new))))
    (by decide) (by decide)).1.1

/-- C20, as stated for every `maxlifetime >= 0`, fails when the `int64` sum
wraps: "A" of second 1, swept at second 1 with `maxlifetime = 2^63 - 1`, is
removed although it was not idle at all. -/
theorem sweep_evicts_fresh :
    (0 : Int) ≤ 9223372036854775807 ∧
    ¬ SweepSafe stateA1 9223372036854775807 { wall := 1000000000 } := by
  refine ⟨by decide, ?_⟩
  intro h
  have h1 := h 0 (by decide) (by decide)
    { sid := "A", timeAccessed := { wall := 1000000000 }, value := [] } (by decide)
  exact absurd h1 (by decide)

/-- C20, amended: in a well-formed state (sorted or not) where the sum of the
eviction test stays in `int64` on every record, the elements removed by the
sweep form a segment at the back of the list, the survivors are the rest of
the list in their order with the records untouched, and every removed record
was idle for more than `maxlifetime` seconds. -/
theorem sweep_safe (pder : Provider) (maxlifetime : Int) (now : Time)
    (hwf : WellFormed pder) (ho : NoOverflow pder maxlifetime) :
    SweepSafe pder maxlifetime now ∧
    (SessionGC pder maxlifetime now).heap = pder.heap ∧
    ∃ removed, pder.list = (SessionGC pder maxlifetime now).list ++ removed ∧
      ∀ e ∈ removed, e ∉ (SessionGC pder maxlifetime now).list ∧
        ∀ st ∈ pder.heap[e]?, maxlifetime * 1000000000 < now.wall - st.timeAccessed.wall := by
  obtain ⟨_, h2, h3, _, _⟩ := gcLoop_spec maxlifetime now _ pder hwf (Nat.le_refl _)
  have hsplit := rdropWhile_append_rtakeWhile (expiredAt pder.heap maxlifetime now) pder.list
  have hlist : (SessionGC pder maxlifetime now).list =
      pder.list.rdropWhile (expiredAt pder.heap maxlifetime now) := h3
  have hidle : ∀ e ∈ pder.list, expiredAt pder.heap maxlifetime now e = true →
      ∀ st ∈ pder.heap[e]?, maxlifetime * 1000000000 < now.wall - st.timeAccessed.wall := by
    intro e he hx st hst
    have hst2 : pder.heap[e]? = some st := hst
    have hr : st ∈ records pder := List.mem_filterMap.mpr ⟨e, he, hst2⟩
    obtain ⟨o1, o2⟩ := ho st hr
    simp only [expiredAt, hst2, expired, decide_eq_true_eq] at hx
    rw [wrapInt64_eq o1 o2] at hx
    unfold Time.Unix at hx
    omega
  have hnd := hwf.nodup
  rw [← hsplit] at hnd
  have hdisj := (List.nodup_append.mp hnd).2.2
  have hrem : ∀ e ∈ pder.list, e ∉ (SessionGC pder maxlifetime now).list →
      e ∈ pder.list.rtakeWhile (expiredAt pder.heap maxlifetime now) := by
    intro e he hnot
    rw [hlist] at hnot
    have he2 : e ∈ pder.list.rdropWhile (expiredAt pder.heap maxlifetime now) ++
        pder.list.rtakeWhile (expiredAt pder.heap maxlifetime now) := by
      rw [hsplit]
      exact he
    rcases List.mem_append.mp he2 with h | h
    · exact absurd h hnot
    · exact h
  refine ⟨?_, h2, pder.list.rtakeWhile (expiredAt pder.heap maxlifetime now), ?_, ?_⟩
  · intro e he hnot
    exact hidle e he (List.mem_rtakeWhile_imp (hrem e he hnot))
  · rw [hlist, hsplit]
  · intro e he
    have hmem : e ∈ pder.list := (List.rtakeWhile_suffix _ _).subset he
    refine ⟨?_, hidle e hmem (List.mem_rtakeWhile_imp he)⟩
    rw [hlist]
    intro hin
    exact hdisj hin he

/-- A sweep of an unsorted state, for C20: "A" of second 0 in front of "B" of
second 1, swept at second 9 with `maxlifetime = 2`. -/
theorem sweep_safe_witness : SweepSafe stateAB 2 { wall := 9000000000 } :=
  (sweep_safe stateAB 2 { wall := 9000000000 }
    (reachable_wf (Reachable.init _ _ _ (Reachable.init _ _ _ Reachable.new)))
    (by decide)).1

/-! ## The token -/

theorem encChar_mem (v : Nat) : encChar v ∈ encodeURL := by
  unfold encChar
  have hlen : encodeURL.length = 64 := by decide
  have hlt : v % 64 < encodeURL.length := by rw [hlen]; exact Nat.mod_lt _ (by decide)
  rw [List.getD_eq_getElem _ _ hlt]
  exact List.getElem_mem hlt

theorem encodeURL_plain : ∀ c ∈ encodeURL, shouldEscape c = false ∧ c ≠ '%' ∧ c ≠ '+' := by
  decide

theorem encodeBytes_shape : ∀ src : List UInt8,
    ∃ body, encodeBytes src = body ++ List.replicate ((3 - src.length % 3) % 3) '=' ∧
      (∀ c ∈ body, c ∈ encodeURL) ∧
      body.length + (3 - src.length % 3) % 3 = 4 * ((src.length + 2) / 3) := by
  intro src
  induction src using encodeBytes.induct with
  | case1 b0 b1 b2 rest ih =>
    obtain ⟨body, h1, h2, h3⟩ := ih
    refine ⟨encChar ((b0.toNat * 65536 + b1.toNat * 256 + b2.toNat) / 262144) ::
      encChar ((b0.toNat * 65536 + b1.toNat * 256 + b2.toNat) / 4096) ::
      encChar ((b0.toNat * 65536 + b1.toNat * 256 + b2.toNat) / 64) ::
      encChar (b0.toNat * 65536 + b1.toNat * 256 + b2.toNat) :: body, ?_, ?_, ?_⟩
    · have hm : (3 - (b0 :: b1 :: b2 :: rest).length % 3) % 3 = (3 - rest.length % 3) % 3 := by
        simp only [List.length_cons]
        omega
      rw [hm]
      simp only [encodeBytes, h1, List.cons_append]
    · intro c hc
      simp only [List.mem_cons] at hc
      rcases hc with hc | hc | hc | hc | hc
      · rw [hc]; exact encChar_mem _
      · rw [hc]; exact encChar_mem _
      · rw [hc]; exact encChar_mem _
      · rw [hc]; exact encChar_mem _
      · exact h2 c hc
    · simp only [List.length_cons] at h3 ⊢
      omega
  | case2 b0 b1 =>
    refine ⟨[encChar ((b0.toNat * 65536 + b1.toNat * 256) / 262144),
      encChar ((b0.toNat * 65536 + b1.toNat * 256) / 4096),
      encChar ((b0.toNat * 65536 + b1.toNat * 256) / 64)], rfl, ?_, by simp⟩
    intro c hc
    simp only [List.mem_cons, List.mem_singleton, List.not_mem_nil, or_false] at hc
    rcases hc with hc | hc | hc
    · rw [hc]; exact encChar_mem _
    · rw [hc]; exact encChar_mem _
    · rw [hc]; exact encChar_mem _
  | case3 b0 =>
    refine ⟨[encChar ((b0.toNat * 65536) / 262144), encChar ((b0.toNat * 65536) / 4096)],
      rfl, ?_, by simp⟩
    intro c hc
    simp only [List.mem_cons, List.mem_singleton, List.not_mem_nil, or_false] at hc
    rcases hc with hc | hc
    · rw [hc]; exact encChar_mem _
    · rw [hc]; exact encChar_mem _
  | case4 => exact ⟨[], rfl, by simp, rfl⟩

theorem token_shape (buf : List UInt8) (h : buf.length = 256) :
    ∃ body, body.length = 342 ∧ (∀ c ∈ body, c ∈ encodeURL) ∧
      encodeBytes buf = body ++ ['=', '='] := by
  obtain ⟨body, h1, h2, h3⟩ := encodeBytes_shape buf
  rw [h] at h1 h3
  exact ⟨body, by omega, h2, h1⟩

theorem escape_append (s t : List Char) : escape (s ++ t) = escape s ++ escape t := by
  induction s with
  | nil => rfl
  | cons c s ih => simp [escape, ih]

theorem escape_plain (s : List Char) (h : ∀ c ∈ s, c ∈ encodeURL) : escape s = s := by
  induction s with
  | nil => rfl
  | cons c s ih =>
    have hc := (encodeURL_plain c (h c (by simp))).1
    simp [escape, escapeChar, hc, ih (fun x hx => h x (by simp [hx]))]

theorem unescape_cons_plain (c : Char) (rest : List Char) (h1 : c ≠ '%') (h2 : c ≠ '+') :
    unescape (c :: rest) = (unescape rest).map (fun r => c :: r) := by
  conv_lhs => unfold unescape
  simp [h1, h2]

theorem unescape_plain (s t : List Char) (h : ∀ c ∈ s, c ∈ encodeURL) :
    unescape (s ++ t) = (unescape t).map (fun r => s ++ r) := by
  induction s with
  | nil => simp
  | cons c s ih =>
    obtain ⟨_, h1, h2⟩ := encodeURL_plain c (h c (by simp))
    rw [List.cons_append, unescape_cons_plain c _ h1 h2, ih (fun x hx => h x (by simp [hx]))]
    cases unescape t <;> simp

theorem zeros_length : zeros.length = 256 := by
  unfold zeros
  exact List.length_replicate _ _

theorem escape_token (body : List Char) (h : ∀ c ∈ body, c ∈ encodeURL) :
    escape (body ++ ['=', '=']) = body ++ ['%', '3', 'D', '%', '3', 'D'] := by
  rw [escape_append, escape_plain body h]
  congr 1

theorem unescape_token (body : List Char) (h : ∀ c ∈ body, c ∈ encodeURL) :
    unescape (body ++ ['%', '3', 'D', '%', '3', 'D']) = some (body ++ ['=', '=']) := by
  rw [unescape_plain body _ h]
  have : unescape ['%', '3', 'D', '%', '3', 'D'] = some ['=', '='] := by decide
  rw [this]
  rfl

/-- The token of a full buffer and its cookie form. -/
theorem token_escape (buf : List UInt8) (h : buf.length = 256) :
    ∃ body, body.length = 342 ∧ (∀ c ∈ body, c ∈ encodeURL) ∧
      EncodeToString buf = String.mk (body ++ ['=', '=']) ∧
      QueryEscape (EncodeToString buf) = String.mk (body ++ ['%', '3', 'D', '%', '3', 'D']) ∧
      QueryEscape (EncodeToString buf) ≠ EncodeToString buf ∧
      QueryEscape (EncodeToString buf) ≠ "" ∧
      QueryUnescape (QueryEscape (EncodeToString buf)) = (EncodeToString buf, none) := by
  obtain ⟨body, h1, h2, h3⟩ := token_shape buf h
  have he : QueryEscape (EncodeToString buf) =
      String.mk (body ++ ['%', '3', 'D', '%', '3', 'D']) := by
    unfold QueryEscape EncodeToString
    rw [h3]
    show String.mk (escape (body ++ ['=', '='])) = _
    rw [escape_token body h2]
  have hs : EncodeToString buf = String.mk (body ++ ['=', '=']) := by
    unfold EncodeToString
    rw [h3]
  refine ⟨body, h1, h2, hs, he, ?_, ?_, ?_⟩
  · rw [he, hs]
    intro hc
    have hd : body ++ ['%', '3', 'D', '%', '3', 'D'] = body ++ ['=', '='] :=
      congrArg String.data hc
    exact absurd (List.append_cancel_left hd) (by decide)
  · rw [he]
    intro hc
    have hd : body ++ ['%', '3', 'D', '%', '3', 'D'] = [] := congrArg String.data hc
    have hc2 : (body ++ ['%', '3', 'D', '%', '3', 'D']).length = 0 := by
      rw [hd]
      rfl
    simp at hc2
  · rw [he, hs]
    unfold QueryUnescape
    show (match unescape (body ++ ['%', '3', 'D', '%', '3', 'D']) with
      | some r => (String.mk r, none)
      | none => ("", some "invalid URL escape")) = _
    rw [unescape_token body h2]

theorem SessionInit_gets (pder : Provider) (sid : String) (now : Time)
    (h : mapGet pder.sessions sid = none) :
    mapGet (SessionInit pder sid now).1.sessions sid = some pder.heap.length := by
  rw [SessionInit_none now h]
  simp [mapGet_mapSet]

theorem generateNewSession_rejected (rand : Nat → Except String (List UInt8))
    (clock : Nat → Time) (pder : Provider)
    (h : ∀ i, (mapGet pder.sessions (sessionId (rand i)).1).isSome = true) :
    ∀ fuel i, generateNewSession rand clock fuel i pder = none := by
  intro fuel
  induction fuel with
  | zero => intro i; rfl
  | succ fuel ih =>
    intro i
    obtain ⟨a, ha⟩ := Option.isSome_iff_exists.mp (h i)
    simp only [generateNewSession, SessionInit_some (clock i) ha]
    exact ih (i + 1)

theorem generateNewSession_from (rand : Nat → Except String (List UInt8))
    (clock : Nat → Time) (pder : Provider) :
    ∀ (k i : Nat),
      (∀ j, j < k → (mapGet pder.sessions (sessionId (rand (i + j))).1).isSome = true) →
      mapGet pder.sessions (sessionId (rand (i + k))).1 = none →
      (∀ fuel, k < fuel → generateNewSession rand clock fuel i pder =
        some ((SessionInit pder (sessionId (rand (i + k))).1 (clock (i + k))).1,
          pder.heap.length, (sessionId (rand (i + k))).1)) ∧
      (∀ fuel, fuel ≤ k → generateNewSession rand clock fuel i pder = none) := by
  intro k
  induction k with
  | zero =>
    intro i _ hfresh
    constructor
    · intro fuel hf
      obtain ⟨n, rfl⟩ : ∃ n, fuel = n + 1 := ⟨fuel - 1, by omega⟩
      simp only [Nat.add_zero] at hfresh ⊢
      simp only [generateNewSession, SessionInit_none (clock i) hfresh]
    · intro fuel hf
      have : fuel = 0 := by omega
      subst this
      rfl
  | succ k ih =>
    intro i hrej hfresh
    obtain ⟨a, ha⟩ := Option.isSome_iff_exists.mp (hrej 0 (by omega))
    simp only [Nat.add_zero] at ha
    have hrej2 : ∀ j, j < k →
        (mapGet pder.sessions (sessionId (rand (i + 1 + j))).1).isSome = true := by
      intro j hj
      have := hrej (j + 1) (by omega)
      rw [show i + (j + 1) = i + 1 + j by omega] at this
      exact this
    have hfresh2 : mapGet pder.sessions (sessionId (rand (i + 1 + k))).1 = none := by
      rw [show i + 1 + k = i + (k + 1) by omega]
      exact hfresh
    obtain ⟨ih1, ih2⟩ := ih (i + 1) hrej2 hfresh2
    rw [show i + 1 + k = i + (k + 1) by omega] at ih1
    constructor
    · intro fuel hf
      obtain ⟨n, rfl⟩ : ∃ n, fuel = n + 1 := ⟨fuel - 1, by omega⟩
      simp only [generateNewSession, SessionInit_some (clock i) ha]
      exact ih1 n (by omega)
    · intro fuel hf
      cases fuel with
      | zero => rfl
      | succ n =>
        simp only [generateNewSession, SessionInit_some (clock i) ha]
        exact ih2 n (by omega)

/-! ## The manager -/

/-- C14: a failing random source is not surfaced.  On a new provider
`generateNewSession` drops the error of `sessionId`, creates a record under
the empty sid and returns it as the new session; `StartSession` sets a cookie
with the empty value. -/
theorem random_failure_creates_session :
    (sessionId (failingSource 0)).2 = some "EOF" ∧
    generateNewSession failingSource tick 1 0 NewProvider =
      some ({ sessions := [("", 0)], list := [0],
              heap := [{ sid := "", timeAccessed := { wall := 0 }, value := [] }] }, 0, "") ∧
    StartSession { CookieName := "gosessionid", maxlifetime := 3600 } failingSource tick 1
        NewProvider =
      some ({ sessions := [("", 0)], list := [0],
              heap := [{ sid := "", timeAccessed := { wall := 0 }, value := [] }] }, 0,
            { Name := "gosessionid", Value := "", Path := "/", HttpOnly := true,
              Expires := none, MaxAge := 0 }) := by
  decide

/-- C15, as stated, fails: with a random source that yields the same buffer at
every read and a provider that already holds its token, `generateNewSession`
does not return within any number of iterations. -/
theorem retry_not_bounded :
    ¬ ∃ fuel, (generateNewSession zeroSource tick fuel 0 stateToken).isSome = true := by
  rintro ⟨fuel, h⟩
  have hkey : ∀ i, (mapGet stateToken.sessions (sessionId (zeroSource i)).1).isSome = true := by
    intro i
    have h0 : mapGet NewProvider.sessions (EncodeToString zeros) = none := rfl
    have h1 := SessionInit_gets NewProvider (EncodeToString zeros) { wall := 0 } h0
    show (mapGet (SessionInit NewProvider (EncodeToString zeros) { wall := 0 }).1.sessions
      (EncodeToString zeros)).isSome = true
    rw [h1]
    rfl
  rw [generateNewSession_rejected zeroSource tick stateToken hkey fuel 0] at h
  exact absurd h (by decide)

/-- C15, amended: the retry loop has no bound of its own.  When the first `k`
identifiers are keys of `sessions` and the next one is not,
`generateNewSession` returns after exactly `k + 1` calls of `SessionInit` (not
within `k` iterations, and with the same result for every larger number) the
session created under that identifier; when every identifier is a key it does
not return. -/
theorem retry_until_fresh (rand : Nat → Except String (List UInt8)) (clock : Nat → Time)
    (pder : Provider) (k : Nat)
    (hrej : ∀ j, j < k → (mapGet pder.sessions (sessionId (rand j)).1).isSome = true) :
    (mapGet pder.sessions (sessionId (rand k)).1 = none →
      (∀ fuel, k < fuel → generateNewSession rand clock fuel 0 pder =
        some ((SessionInit pder (sessionId (rand k)).1 (clock k)).1,
          pder.heap.length, (sessionId (rand k)).1)) ∧
      (∀ fuel, fuel ≤ k → generateNewSession rand clock fuel 0 pder = none)) ∧
    ((∀ i, (mapGet pder.sessions (sessionId (rand i)).1).isSome = true) →
      ∀ fuel, generateNewSession rand clock fuel 0 pder = none) := by
  constructor
  · intro hfresh
    have h := generateNewSession_from rand clock pder k 0
      (fun j hj => by rw [Nat.zero_add]; exact hrej j hj)
      (by rw [Nat.zero_add]; exact hfresh)
    simp only [Nat.zero_add] at h
    exact h
  · intro hall fuel
    exact generateNewSession_rejected rand clock pder hall fuel 0

/-- A retry, for C15: the source fails at the first read and yields the zero
buffer afterwards, and the provider already holds the empty sid; the session
is created at the second attempt. -/
theorem retry_until_fresh_witness :
    (∀ fuel, 1 < fuel →
      generateNewSession (fun i => if i = 0 then Except.error "EOF" else Except.ok zeros)
        tick fuel 0 (SessionInit NewProvider "" { wall := 0 }).1 =
      some ((SessionInit (SessionInit NewProvider "" { wall := 0 }).1
              (EncodeToString zeros) (tick 1)).1, 1, EncodeToString zeros)) ∧
    (∀ fuel, fuel ≤ 1 →
      generateNewSession (fun i => if i = 0 then Except.error "EOF" else Except.ok zeros)
        tick fuel 0 (SessionInit NewProvider "" { wall := 0 }).1 = none) :=
  (retry_until_fresh (fun i => if i = 0 then Except.error "EOF" else Except.ok zeros) tick
    (SessionInit NewProvider "" { wall := 0 }).1 1
    (fun j hj => by
      have hj0 : j = 0 := by omega
      subst hj0
      decide)).1
    (by
      show mapGet [("", 0)] (EncodeToString zeros) = none
      have hne : ¬ ("" = EncodeToString zeros) := by
        intro hc
        have hl : (EncodeToString zeros).length = 0 := by rw [← hc]; rfl
        obtain ⟨body, hb, _, hs, _⟩ := token_escape zeros zeros_length
        rw [hs] at hl
        have : (body ++ ['=', '=']).length = 0 := hl
        simp at this
      simp [mapGet, hne])

/-- C16: `DestroySession` does not end the session.  For a session started by
`StartSession` with a fresh token, the cookie value is the escaped token;
`DestroySession` passes that value to `SessionDestroy` without unescaping it,
so the sid stays in the provider and `GetSession` with the same cookie value
still returns the session. -/
theorem destroy_keeps_session (manager : Manager) (pder : Provider) (buf : List UInt8)
    (rand : Nat → Except String (List UInt8)) (clock : Nat → Time) (now : Time)
    (hlen : buf.length = 256) (hr : rand 0 = Except.ok buf)
    (hfresh : mapGet pder.sessions (EncodeToString buf) = none) :
    ∃ pder1 session cookie,
      StartSession manager rand clock 1 pder = some (pder1, session, cookie) ∧
      cookie.Value = QueryEscape (EncodeToString buf) ∧
      SessionRead pder1 (EncodeToString buf) = Except.ok session ∧
      SessionRead (DestroySession manager pder1 (some cookie.Value) now).1
        (EncodeToString buf) = Except.ok session ∧
      GetSession manager (DestroySession manager pder1 (some cookie.Value) now).1
        (some cookie.Value) = some session := by
  obtain ⟨_, _, _, _, _, hne, hne0, hun⟩ := token_escape buf hlen
  have hsid : (sessionId (rand 0)).1 = EncodeToString buf := by rw [hr]; rfl
  have hgen : generateNewSession rand clock 1 0 pder =
      some ((SessionInit pder (EncodeToString buf) (clock 0)).1, pder.heap.length,
        EncodeToString buf) := by
    simp only [generateNewSession, hsid, SessionInit_none (clock 0) hfresh]
  have hkey := SessionInit_gets pder (EncodeToString buf) (clock 0) hfresh
  have hkeep : mapGet (SessionDestroy (SessionInit pder (EncodeToString buf) (clock 0)).1
      (QueryEscape (EncodeToString buf))).1.sessions (EncodeToString buf) =
      some pder.heap.length := by
    cases hg : mapGet (SessionInit pder (EncodeToString buf) (clock 0)).1.sessions
        (QueryEscape (EncodeToString buf)) with
    | none => rw [SessionDestroy_none hg]; exact hkey
    | some a =>
      rw [SessionDestroy_some hg]
      show mapGet (mapDelete _ _) _ = _
      rw [mapGet_mapDelete, if_neg (fun h => hne h.symm)]
      exact hkey
  refine ⟨(SessionInit pder (EncodeToString buf) (clock 0)).1, pder.heap.length,
    { Name := manager.CookieName, Value := QueryEscape (EncodeToString buf), Path := "/",
      HttpOnly := true, Expires := none, MaxAge := 0 }, ?_, rfl, ?_, ?_, ?_⟩
  · simp only [StartSession, hgen]
  · simp only [SessionRead, hkey]
  · simp only [DestroySession, if_neg hne0, SessionRead, hkeep]
  · simp only [DestroySession, if_neg hne0, GetSession, hun, SessionRead, hkeep]

/-- A start and a destroy, for C16: the random source yields the zero buffer
on a new provider; after `DestroySession` with the cookie of `StartSession`,
`GetSession` with that cookie still returns a session. -/
theorem destroy_keeps_session_witness :
    ∃ pder1 session cookie,
      StartSession { CookieName := "gosessionid", maxlifetime := 3600 } zeroSource tick 1
        NewProvider = some (pder1, session, cookie) ∧
      cookie.Value = QueryEscape (EncodeToString zeros) ∧
      SessionRead pder1 (EncodeToString zeros) = Except.ok session ∧
      SessionRead (DestroySession { CookieName := "gosessionid", maxlifetime := 3600 } pder1
        (some cookie.Value) { wall := 9000000000 }).1 (EncodeToString zeros) =
          Except.ok session ∧
      GetSession { CookieName := "gosessionid", maxlifetime := 3600 }
        (DestroySession { CookieName := "gosessionid", maxlifetime := 3600 } pder1
          (some cookie.Value) { wall := 9000000000 }).1 (some cookie.Value) = some session :=
  destroy_keeps_session { CookieName := "gosessionid", maxlifetime := 3600 } NewProvider zeros
    zeroSource tick { wall := 9000000000 } zeros_length rfl rfl

/-- C17, as stated, fails: the token of the zero buffer has 344 characters, but
`url.QueryEscape` changes it (its last two characters are the padding `=`). -/
theorem token_not_url_safe :
    zeros.length = 256 ∧
    QueryEscape (sessionId (Except.ok zeros)).1 ≠ (sessionId (Except.ok zeros)).1 := by
  refine ⟨zeros_length, ?_⟩
  obtain ⟨_, _, _, _, _, hne, _, _⟩ := token_escape zeros zeros_length
  exact hne

/-- C17, amended: for every 256-byte buffer `sessionId` returns no error and a
token of 344 characters: 342 characters of the URL-safe alphabet, none of
which `url.QueryEscape` escapes, followed by the padding `==`, which it does
escape.  The escaped token is the 342 characters followed by `%3D%3D` (348
characters), and `url.QueryUnescape` gives the token back. -/
theorem sessionId_token (buf : List UInt8) (h : buf.length = 256) :
    (sessionId (Except.ok buf)).2 = none ∧
    (sessionId (Except.ok buf)).1.length = 344 ∧
    ∃ body, body.length = 342 ∧
      (∀ c ∈ body, c ∈ encodeURL ∧ shouldEscape c = false) ∧
      shouldEscape '=' = true ∧
      (sessionId (Except.ok buf)).1 = String.mk (body ++ ['=', '=']) ∧
      QueryEscape (sessionId (Except.ok buf)).1 =
        String.mk (body ++ ['%', '3', 'D', '%', '3', 'D']) ∧
      (QueryEscape (sessionId (Except.ok buf)).1).length = 348 ∧
      QueryUnescape (QueryEscape (sessionId (Except.ok buf)).1) =
        ((sessionId (Except.ok buf)).1, none) := by
  obtain ⟨body, h1, h2, hs, he, _, _, hun⟩ := token_escape buf h
  have hsid : (sessionId (Except.ok buf)).1 = EncodeToString buf := rfl
  rw [hsid]
  refine ⟨rfl, ?_, body, h1, fun c hc => ⟨h2 c hc, (encodeURL_plain c (h2 c hc)).1⟩,
    by decide, hs, he, ?_, hun⟩
  · rw [hs]
    show (body ++ ['=', '=']).length = 344
    simp [h1]
  · rw [he]
    show (body ++ ['%', '3', 'D', '%', '3', 'D']).length = 348
    simp [h1]

/-- A token, for C17: the token of the zero buffer has 344 characters and its
escaped form has 348. -/
theorem sessionId_token_witness :
    (sessionId (Except.ok zeros)).1.length = 344 ∧
    ∃ body, body.length = 342 ∧
      (∀ c ∈ body, c ∈ encodeURL ∧ shouldEscape c = false) ∧
      shouldEscape '=' = true ∧
      (sessionId (Except.ok zeros)).1 = String.mk (body ++ ['=', '=']) ∧
      QueryEscape (sessionId (Except.ok zeros)).1 =
        String.mk (body ++ ['%', '3', 'D', '%', '3', 'D']) ∧
      (QueryEscape (sessionId (Except.ok zeros)).1).length = 348 ∧
      QueryUnescape (QueryEscape (sessionId (Except.ok zeros)).1) =
        ((sessionId (Except.ok zeros)).1, none) :=
  (sessionId_token zeros zeros_length).2

end Gosm
